import Mathlib

/-!
Verification development for the csv-to-json-import ETL pipeline (Go).

The Go sources are embedded shallowly:
* machine integers (`int`, `int64`) become `Int`; `float64` becomes `ℚ`
  (the quantities the claims speak about — sums, averages, thresholds,
  comparisons — are exact field arithmetic in the source expressions);
* Go maps become association lists with deterministic iteration order;
  every claim proved below is insensitive to map iteration order (lookups
  are pointwise, and emitted per-key lists are either sorted by a strict
  total order on distinct keys or quantified per key);
* a CSV input is a list of already-split records (`List (List String)`);
  the per-row `err != nil` continue-branch of the Go CSV reader is the
  absent-row case of this model, and the wrong-arity branch is kept;
* `strconv.Atoi` / `ParseInt` / `ParseFloat` are modelled on the ASCII
  decimal strings this pipeline feeds them, returning `Option` and, where
  the Go code discards the error, defaulting to zero exactly as Go does;
* the HTTP layer of the TMDB client is an oracle argument: each call site
  receives the transport outcome (transport error, or a status code plus
  the JSON-decoded body where `none` records a malformed payload).
-/

namespace CsvEtl

/-! ### Go strconv primitives (decimal ASCII model) -/

/-- Value of a list of decimal digit characters, most significant first. -/
def digitsVal (l : List Char) : Nat :=
  l.foldl (fun a c => a * 10 + (c.toNat - 48)) 0

/-- Model of `strconv.Atoi` / `strconv.ParseInt(s, 10, 64)` on decimal ASCII
input: optional sign followed by at least one digit.  Overflow is not
modelled (the datasets stay far below 2^63). -/
def parseGoInt (s : String) : Option Int :=
  let cs := s.toList
  let signed : Bool × List Char :=
    match cs with
    | c :: t => if c = '-' then (true, t) else if c = '+' then (false, t) else (false, cs)
    | [] => (false, [])
  let neg := signed.1
  let rest := signed.2
  if rest ≠ [] ∧ rest.all Char.isDigit then
    some (if neg then -(digitsVal rest : Int) else (digitsVal rest : Int))
  else none

/-- `v, _ := strconv.Atoi(x)`: the Go error is discarded and `v` is `0`. -/
def goAtoi (s : String) : Int :=
  (parseGoInt s).getD 0

/-- Model of `strconv.ParseFloat(s, 64)` on plain decimal ASCII input:
optional sign, digits with an optional fractional part, optional decimal
exponent.  `float64` is modelled by `ℚ`. -/
def parseGoFloat (s : String) : Option ℚ :=
  let cs := s.toList
  let signed : Bool × List Char :=
    match cs with
    | c :: t => if c = '-' then (true, t) else if c = '+' then (false, t) else (false, cs)
    | [] => (false, [])
  let neg := signed.1
  let body := signed.2
  let mantExp : List Char × Option (List Char) :=
    match body.span (fun c => c ≠ 'e' ∧ c ≠ 'E') with
    | (pre, []) => (pre, none)
    | (pre, _ :: post) => (pre, some post)
  let mant := mantExp.1
  let intFrac : List Char × List Char :=
    match mant.span (fun c => c ≠ '.') with
    | (pre, []) => (pre, [])
    | (pre, _ :: post) => (pre, post)
  let ip := intFrac.1
  let fp := intFrac.2
  let expVal : Option Int :=
    match mantExp.2 with
    | none => some 0
    | some ecs =>
      let esigned : Bool × List Char :=
        match ecs with
        | c :: t => if c = '-' then (true, t) else if c = '+' then (false, t) else (false, ecs)
        | [] => (false, [])
      if esigned.2 ≠ [] ∧ esigned.2.all Char.isDigit then
        some (if esigned.1 then -(digitsVal esigned.2 : Int) else (digitsVal esigned.2 : Int))
      else none
  if (ip ≠ [] ∨ fp ≠ []) ∧ ip.all Char.isDigit ∧ fp.all Char.isDigit ∧
      (mant.count '.' ≤ 1) then
    match expVal with
    | none => none
    | some e =>
      let base : Nat := digitsVal ip * 10 ^ fp.length + digitsVal fp
      let mag : ℚ :=
        if 0 ≤ e then mkRat ((base : Int) * (10 : Int) ^ e.toNat) (10 ^ fp.length)
        else mkRat (base : Int) (10 ^ fp.length * 10 ^ (-e).toNat)
      some (if neg then -mag else mag)
  else none

/-- `v, _ := strconv.ParseFloat(x, 64)`: the Go error is discarded, `v = 0`. -/
def goParseFloat (s : String) : ℚ :=
  (parseGoFloat s).getD 0

/-- `v, _ := strconv.ParseInt(x, 10, 64)`: the Go error is discarded, `v = 0`. -/
def goParseInt64 (s : String) : Int :=
  (parseGoInt s).getD 0

/-- Exact rational addition written through `mkRat`; equal to `+` on `ℚ`
(`fadd_eq_add`), and concrete instances reduce inside the kernel. -/
def fadd (a b : ℚ) : ℚ :=
  mkRat (a.num * (b.den : Int) + b.num * (a.den : Int)) (a.den * b.den)

/-- Exact division of a rational by a natural number written through
`mkRat`; equal to `a / n` (`fdivNat_eq_div`). -/
def fdivNat (a : ℚ) (n : Nat) : ℚ :=
  mkRat a.num (a.den * n)

theorem fadd_eq_add (a b : ℚ) : fadd a b = a + b := by
  rw [fadd, Rat.mkRat_eq_div]
  have ha : ((a.den : ℚ)) ≠ 0 := by
    exact_mod_cast a.den_nz
  have hb : ((b.den : ℚ)) ≠ 0 := by
    exact_mod_cast b.den_nz
  rw [show ((a.den * b.den : Nat) : ℚ) = (a.den : ℚ) * (b.den : ℚ) by push_cast; ring]
  field_simp
  calc (a.num : ℚ) * b.den + b.num * a.den
      = (a.num / a.den) * (a.den * b.den) + (b.num / b.den) * (a.den * b.den) := by
        field_simp
        ring
    _ = (a + b) * (a.den * b.den) := by
        rw [Rat.num_div_den, Rat.num_div_den]
        ring

theorem fdivNat_eq_div (a : ℚ) (n : Nat) : fdivNat a n = a / n := by
  rw [fdivNat, Rat.mkRat_eq_div]
  rcases Nat.eq_zero_or_pos n with h | h
  · subst h
    simp
  · have ha : ((a.den : ℚ)) ≠ 0 := by
      exact_mod_cast a.den_nz
    have hn : ((n : ℚ)) ≠ 0 := by
      exact_mod_cast Nat.pos_iff_ne_zero.mp h
    rw [show ((a.den * n : Nat) : ℚ) = (a.den : ℚ) * (n : ℚ) by push_cast; ring]
    rw [div_mul_eq_div_div]
    rw [Rat.num_div_den]

/-! ### Association lists standing in for Go maps -/

/-- Go map read `m[k]` (presence-aware form `v, ok := m[k]`). -/
def alookup {κ α : Type} [DecidableEq κ] : List (κ × α) → κ → Option α
  | [], _ => none
  | (k, v) :: rest, key => if k = key then some v else alookup rest key

/-- Go map write `m[k] = v`: replace the binding if present, else append. -/
def aset {κ α : Type} [DecidableEq κ] : List (κ × α) → κ → α → List (κ × α)
  | [], k, v => [(k, v)]
  | (k0, v0) :: rest, k, v =>
    if k0 = k then (k0, v) :: rest else (k0, v0) :: aset rest k v

theorem alookup_aset_self {κ α : Type} [DecidableEq κ]
    (l : List (κ × α)) (k : κ) (v : α) : alookup (aset l k v) k = some v := by
  induction l with
  | nil => simp [aset, alookup]
  | cons p rest ih =>
    obtain ⟨k0, v0⟩ := p
    by_cases h : k0 = k
    · simp [aset, alookup, h]
    · simp [aset, alookup, h, ih]

theorem alookup_aset_ne {κ α : Type} [DecidableEq κ]
    (l : List (κ × α)) (k k' : κ) (v : α) (h : k ≠ k') :
    alookup (aset l k v) k' = alookup l k' := by
  induction l with
  | nil => simp [aset, alookup, h]
  | cons p rest ih =>
    obtain ⟨k0, v0⟩ := p
    by_cases h0 : k0 = k
    · subst h0
      simp [aset, alookup, h]
    · simp [aset, alookup, h0, ih]

/-! ### Tag Normalizer (`loaders.normalizeTag`) -/

/-- Character class of the Go regexp `\s` (RE2: `[\t\n\f\r ]`). -/
def isRegexSpace (c : Char) : Bool :=
  c = ' ' || c = '\t' || c = '\n' || c = '\r' || c = Char.ofNat 12

/-- ASCII fragment of the Unicode white space class used by
`strings.TrimSpace`. -/
def isGoSpace (c : Char) : Bool :=
  c = ' ' || c = '\t' || c = '\n' || c = '\r' || c = Char.ofNat 11 || c = Char.ofNat 12

/-- Drop matching characters from the right end of a character list. -/
def trimRight (p : Char → Bool) (l : List Char) : List Char :=
  (l.reverse.dropWhile p).reverse

/-- Drop matching characters from both ends (`strings.Trim` with a class). -/
def trimBoth (p : Char → Bool) (l : List Char) : List Char :=
  trimRight p (l.dropWhile p)

/-- `strings.TrimSpace`, ASCII model. -/
def trimSpace (s : String) : String :=
  ⟨trimBoth isGoSpace s.toList⟩

/-- `strings.ToLower`, ASCII model (`Char.toLower` lowers `A`–`Z`). -/
def toLowerStr (s : String) : String :=
  ⟨s.toList.map Char.toLower⟩

/-- `regexp \s+ → " "` worker: the flag records whether the previous
character was white space, so each maximal run emits one space. -/
def collapseWSAux : Bool → List Char → List Char
  | _, [] => []
  | prevWS, c :: rest =>
    if isRegexSpace c then
      if prevWS then collapseWSAux true rest
      else ' ' :: collapseWSAux true rest
    else c :: collapseWSAux false rest

/-- `regexp \s+ → " "`: each maximal run of white space becomes one space. -/
def collapseWS (l : List Char) : List Char :=
  collapseWSAux false l

/-- The cutset of `strings.Trim(tag, ".,;:!?\x22...")` in `normalizeTag`:
period comma semicolon colon bang question double-quote single-quote
backtick hyphen underscore. -/
def punctCutset : List Char :=
  ['.', ',', ';', ':', '!', '?', '"', Char.ofNat 39, Char.ofNat 96, '-', '_']

/-- `loaders.normalizeTag`: lowercase, trim space, collapse white space
runs, strip the punctuation cutset from both ends. -/
def normalizeTag (tag : String) : String :=
  let t1 := trimSpace (toLowerStr tag)
  let t2 := collapseWS t1.toList
  let t3 := trimBoth (fun c => punctCutset.contains c) t2
  ⟨t3⟩

/-! ### Frequency Ranker (`loaders.LoadUserTags`)

The Go structure is `map[int]map[string]map[int]struct{}`
(movieId → normalized tag → set of userIds); the inner Go set becomes a
`Finset Int`, the two map layers become association lists. -/

/-- `models.UserTagWithFrequency`. -/
structure UserTagWithFrequency where
  tag : String
  frequency : Nat
deriving DecidableEq

/-- Inner update: add `uid` to the user set of `tag` (creating it if absent). -/
def insertUserInner : List (String × Finset Int) → String → Int → List (String × Finset Int)
  | [], tag, uid => [(tag, {uid})]
  | (t, s) :: rest, tag, uid =>
    if t = tag then (t, insert uid s) :: rest
    else (t, s) :: insertUserInner rest tag uid

/-- Outer update: `tagFrequency[movieId][tag][userId] = struct{}{}`. -/
def insertUserTF : List (Int × List (String × Finset Int)) → Int → String → Int →
    List (Int × List (String × Finset Int))
  | [], mid, tag, uid => [(mid, [(tag, {uid})])]
  | (k, inner) :: rest, mid, tag, uid =>
    if k = mid then (k, insertUserInner inner tag uid) :: rest
    else (k, inner) :: insertUserTF rest mid tag uid

/-- Go map read with zero value: the per-movie tag table. -/
def lookupMovieTF (m : List (Int × List (String × Finset Int))) (mid : Int) :
    List (String × Finset Int) :=
  (alookup m mid).getD []

/-- Go map read with zero value: the user set of one tag. -/
def lookupTagUsers (l : List (String × Finset Int)) (tag : String) : Finset Int :=
  (alookup l tag).getD ∅

/-- One row of the `tags.csv` scan in `LoadUserTags` (lines 182-205):
rows of fewer than four fields are skipped; `userId`, `movieId` parse with
discarded errors; the tag is normalized; the triple is recorded only when
the tag is nonempty and both ids are positive. -/
def tagRowStep (m : List (Int × List (String × Finset Int))) (rec : List String) :
    List (Int × List (String × Finset Int)) :=
  if rec.length < 4 then m
  else
    let userId := goAtoi (rec.getD 0 "")
    let movieId := goAtoi (rec.getD 1 "")
    let tag := normalizeTag (rec.getD 2 "")
    if tag ≠ "" ∧ movieId > 0 ∧ userId > 0 then insertUserTF m movieId tag userId
    else m

/-- The aggregation pass of `LoadUserTags`. -/
def tagFrequency (rows : List (List String)) : List (Int × List (String × Finset Int)) :=
  rows.foldl tagRowStep []

/-- Specification-side view (for the refinement statements of the claims):
the contributor a row adds to the pair `(mid, tag)`, if any, following the
acceptance condition of the scan. -/
def tagRowContributor (mid : Int) (tag : String) (rec : List String) : Option Int :=
  if rec.length < 4 then none
  else
    let userId := goAtoi (rec.getD 0 "")
    let movieId := goAtoi (rec.getD 1 "")
    let t := normalizeTag (rec.getD 2 "")
    if t ≠ "" ∧ movieId > 0 ∧ userId > 0 ∧ movieId = mid ∧ t = tag then some userId
    else none

/-- Specification-side view: the set of distinct contributors that assigned
`tag` to `mid` somewhere in `rows`. -/
def contributorSetSpec (rows : List (List String)) (mid : Int) (tag : String) : Finset Int :=
  (rows.filterMap (tagRowContributor mid tag)).toFinset

/-- Lexicographic less-or-equal on character lists: the order Go uses when
comparing strings with `<` (UTF-8 byte order coincides with code point
order). -/
def charListLe : List Char → List Char → Bool
  | [], _ => true
  | _ :: _, [] => false
  | a :: as, b :: bs =>
    if a < b then true else if b < a then false else charListLe as bs

/-- Go string `a <= b`. -/
def strLe (a b : String) : Prop :=
  charListLe a.toList b.toList = true

/-- Go string `a < b`, phrased for a total order as `≤` together with
inequality. -/
def strLt (a b : String) : Prop :=
  strLe a b ∧ a ≠ b

instance : DecidableRel strLe := by
  intro a b
  unfold strLe
  infer_instance

theorem charListLe_total (a b : List Char) :
    charListLe a b = true ∨ charListLe b a = true := by
  induction a generalizing b with
  | nil => simp [charListLe]
  | cons c cs ih =>
    cases b with
    | nil => simp [charListLe]
    | cons d ds =>
      rcases lt_trichotomy c d with h | h | h
      · simp [charListLe, h]
      · subst h
        rcases ih ds with h2 | h2
        · simp [charListLe, h2]
        · simp [charListLe, h2]
      · simp [charListLe, h, asymm h]

theorem charListLe_trans (a b c : List Char) (h1 : charListLe a b = true)
    (h2 : charListLe b c = true) : charListLe a c = true := by
  induction a generalizing b c with
  | nil => simp [charListLe]
  | cons x xs ih =>
    cases b with
    | nil => simp [charListLe] at h1
    | cons y ys =>
      cases c with
      | nil => simp [charListLe] at h2
      | cons z zs =>
        simp only [charListLe] at h1 h2 ⊢
        rcases lt_trichotomy x y with hxy | hxy | hxy
        · rcases lt_trichotomy y z with hyz | hyz | hyz
          · simp [hxy.trans hyz]
          · subst hyz
            simp [hxy]
          · rw [if_neg (asymm hyz), if_pos hyz] at h2
            cases h2
        · subst hxy
          rcases lt_trichotomy x z with hxz | hxz | hxz
          · simp [hxz]
          · subst hxz
            rw [if_neg (lt_irrefl x), if_neg (lt_irrefl x)] at h1 h2 ⊢
            exact ih ys zs h1 h2
          · rw [if_neg (lt_irrefl x)] at h1
            rw [if_neg (asymm hxz), if_pos hxz] at h2
            cases h2
        · rw [if_neg (asymm hxy), if_pos hxy] at h1
          cases h1

/-- The comparator of the final `sort.Slice` in `LoadUserTags` (lines
220-225), as the matching non-strict total order: larger frequency first,
ties by tag ascending. -/
def tagOrder (a b : UserTagWithFrequency) : Prop :=
  b.frequency < a.frequency ∨ (a.frequency = b.frequency ∧ strLe a.tag b.tag)

instance : DecidableRel tagOrder := by
  intro a b
  unfold tagOrder
  infer_instance

instance : IsTotal UserTagWithFrequency tagOrder := by
  constructor
  intro a b
  rcases Nat.lt_trichotomy a.frequency b.frequency with h | h | h
  · exact Or.inr (Or.inl h)
  · rcases charListLe_total a.tag.toList b.tag.toList with ht | ht
    · exact Or.inl (Or.inr ⟨h, ht⟩)
    · exact Or.inr (Or.inr ⟨h.symm, ht⟩)
  · exact Or.inl (Or.inl h)

instance : IsTrans UserTagWithFrequency tagOrder := by
  constructor
  intro a b c hab hbc
  rcases hab with h1 | ⟨e1, t1⟩
  · rcases hbc with h2 | ⟨e2, t2⟩
    · exact Or.inl (h2.trans h1)
    · exact Or.inl (e2 ▸ h1)
  · rcases hbc with h2 | ⟨e2, t2⟩
    · exact Or.inl (e1 ▸ h2)
    · exact Or.inr ⟨e1.trans e2, charListLe_trans _ _ _ t1 t2⟩

/-- The per-movie tag list of the finalization loop (lines 209-217):
one entry per normalized tag carrying the distinct-user count. -/
def movieTagList (rows : List (List String)) (mid : Int) : List UserTagWithFrequency :=
  (lookupMovieTF (tagFrequency rows) mid).map (fun p => ⟨p.1, p.2.card⟩)

/-- Lines 227-231: `if len(tagList) > maxTags { tagList = tagList[:maxTags] }`
with `maxTags = 10`. -/
def truncTags (l : List UserTagWithFrequency) : List UserTagWithFrequency :=
  if l.length > 10 then l.take 10 else l

/-- The ranked, truncated per-movie tag list (sorting, then truncation). -/
def rankedTagList (rows : List (List String)) (mid : Int) : List UserTagWithFrequency :=
  truncTags (List.insertionSort tagOrder (movieTagList rows mid))

/-- The per-movie output of `LoadUserTags` (lines 233-239): tag names only. -/
def loadUserTagsFor (rows : List (List String)) (mid : Int) : List String :=
  (rankedTagList rows mid).map (fun t => t.tag)

/-! ### Invariants of the tag-frequency structure -/

theorem lookupTagUsers_insertUserInner_self (l : List (String × Finset Int))
    (tag : String) (u : Int) :
    lookupTagUsers (insertUserInner l tag u) tag = insert u (lookupTagUsers l tag) := by
  induction l with
  | nil => simp [insertUserInner, lookupTagUsers, alookup]
  | cons p rest ih =>
    obtain ⟨t, s⟩ := p
    by_cases h : t = tag
    · simp [insertUserInner, lookupTagUsers, alookup, h]
    · simpa [insertUserInner, lookupTagUsers, alookup, h] using ih

theorem lookupTagUsers_insertUserInner_ne (l : List (String × Finset Int))
    (tag tag' : String) (u : Int) (h : tag' ≠ tag) :
    lookupTagUsers (insertUserInner l tag' u) tag = lookupTagUsers l tag := by
  induction l with
  | nil => simp [insertUserInner, lookupTagUsers, alookup, h]
  | cons p rest ih =>
    obtain ⟨t, s⟩ := p
    by_cases h0 : t = tag'
    · subst h0
      simp [insertUserInner, lookupTagUsers, alookup, h]
    · by_cases h1 : t = tag
      · simp [insertUserInner, lookupTagUsers, alookup, h0, h1, Ne.symm h]
      · simpa [insertUserInner, lookupTagUsers, alookup, h0, h1] using ih

theorem lookupMovieTF_insertUserTF_self (m : List (Int × List (String × Finset Int)))
    (mid : Int) (tag : String) (u : Int) :
    lookupMovieTF (insertUserTF m mid tag u) mid =
      insertUserInner (lookupMovieTF m mid) tag u := by
  induction m with
  | nil => simp [insertUserTF, lookupMovieTF, alookup, insertUserInner]
  | cons p rest ih =>
    obtain ⟨k, inner⟩ := p
    by_cases h : k = mid
    · simp [insertUserTF, lookupMovieTF, alookup, h]
    · simpa [insertUserTF, lookupMovieTF, alookup, h] using ih

theorem lookupMovieTF_insertUserTF_ne (m : List (Int × List (String × Finset Int)))
    (mid mid' : Int) (tag : String) (u : Int) (h : mid' ≠ mid) :
    lookupMovieTF (insertUserTF m mid' tag u) mid = lookupMovieTF m mid := by
  induction m with
  | nil => simp [insertUserTF, lookupMovieTF, alookup, h]
  | cons p rest ih =>
    obtain ⟨k, inner⟩ := p
    by_cases h0 : k = mid'
    · subst h0
      simp [insertUserTF, lookupMovieTF, alookup, h]
    · by_cases h1 : k = mid
      · simp [insertUserTF, lookupMovieTF, alookup, h0, h1, Ne.symm h]
      · simpa [insertUserTF, lookupMovieTF, alookup, h0, h1] using ih

/-- Effect of one scanned row on the user set of a fixed `(mid, tag)` pair. -/
theorem lookupTagUsers_tagRowStep (m : List (Int × List (String × Finset Int)))
    (rec : List String) (mid : Int) (tag : String) :
    lookupTagUsers (lookupMovieTF (tagRowStep m rec) mid) tag =
      (tagRowContributor mid tag rec).elim
        (lookupTagUsers (lookupMovieTF m mid) tag)
        (fun u => insert u (lookupTagUsers (lookupMovieTF m mid) tag)) := by
  simp only [tagRowStep, tagRowContributor]
  split_ifs with hlen hc1 hc2 hc2
  · simp
  · obtain ⟨ht, hm, hu, hmid, htag⟩ := hc2
    rw [hmid, htag]
    rw [lookupMovieTF_insertUserTF_self, lookupTagUsers_insertUserInner_self]
    simp
  · by_cases hmid : goAtoi (rec.getD 1 "") = mid
    · have htag : normalizeTag (rec.getD 2 "") ≠ tag := by tauto
      rw [hmid]
      rw [lookupMovieTF_insertUserTF_self,
        lookupTagUsers_insertUserInner_ne _ _ _ _ htag]
      simp
    · rw [lookupMovieTF_insertUserTF_ne _ _ _ _ _ hmid]
      simp
  · exact absurd ⟨hc2.1, hc2.2.1, hc2.2.2.1⟩ hc1
  · simp

/-- The user set accumulated over a row list extends the starting set by the
specification-side contributor set, for every `(mid, tag)` pair. -/
theorem lookupTagUsers_foldl (rows : List (List String))
    (m : List (Int × List (String × Finset Int))) (mid : Int) (tag : String) :
    lookupTagUsers (lookupMovieTF (List.foldl tagRowStep m rows) mid) tag =
      lookupTagUsers (lookupMovieTF m mid) tag ∪
        (rows.filterMap (tagRowContributor mid tag)).toFinset := by
  induction rows generalizing m with
  | nil => simp
  | cons rec rows ih =>
    rw [List.foldl_cons, ih]
    rw [lookupTagUsers_tagRowStep]
    rcases h : tagRowContributor mid tag rec with _ | u
    · simp [List.filterMap_cons, h]
    · simp only [List.filterMap_cons, h, Option.elim]
      rw [List.toFinset_cons]
      rw [Finset.insert_union, Finset.union_insert]

/-- The accumulated user set of `(mid, tag)` is exactly the set of distinct
contributors in the input. -/
theorem tagFrequency_users_eq (rows : List (List String)) (mid : Int) (tag : String) :
    lookupTagUsers (lookupMovieTF (tagFrequency rows) mid) tag =
      contributorSetSpec rows mid tag := by
  rw [tagFrequency, contributorSetSpec, lookupTagUsers_foldl]
  simp [lookupMovieTF, lookupTagUsers, alookup]

theorem keys_insertUserInner (l : List (String × Finset Int)) (tag : String) (u : Int) :
    (insertUserInner l tag u).map Prod.fst =
      if tag ∈ l.map Prod.fst then l.map Prod.fst else l.map Prod.fst ++ [tag] := by
  induction l with
  | nil => simp [insertUserInner]
  | cons p rest ih =>
    obtain ⟨t, s⟩ := p
    by_cases h : t = tag
    · simp [insertUserInner, h]
    · simp only [insertUserInner, if_neg h, List.map_cons, ih]
      by_cases hmem : tag ∈ rest.map Prod.fst
      · simp [hmem, Ne.symm h]
      · simp [hmem, Ne.symm h]

theorem nodup_keys_insertUserInner (l : List (String × Finset Int)) (tag : String)
    (u : Int) (h : (l.map Prod.fst).Nodup) :
    ((insertUserInner l tag u).map Prod.fst).Nodup := by
  rw [keys_insertUserInner]
  by_cases hmem : tag ∈ l.map Prod.fst
  · simpa [hmem] using h
  · simp only [hmem, if_false]
    simp [List.nodup_append, h, hmem]

/-- All inner tag tables of the structure have distinct tag keys. -/
def InnersNodup (m : List (Int × List (String × Finset Int))) : Prop :=
  ∀ p ∈ m, ((p.2.map Prod.fst).Nodup)

theorem innersNodup_insertUserTF (m : List (Int × List (String × Finset Int)))
    (mid : Int) (tag : String) (u : Int) (h : InnersNodup m) :
    InnersNodup (insertUserTF m mid tag u) := by
  induction m with
  | nil =>
    intro p hp
    simp only [insertUserTF, List.mem_singleton] at hp
    subst hp
    simp
  | cons q rest ih =>
    obtain ⟨k, inner⟩ := q
    intro p hp
    by_cases hk : k = mid
    · simp only [insertUserTF, if_pos hk, List.mem_cons] at hp
      rcases hp with hp | hp
      · subst hp
        exact nodup_keys_insertUserInner _ _ _ (h (k, inner) (by simp))
      · exact h p (List.mem_cons_of_mem _ hp)
    · simp only [insertUserTF, if_neg hk, List.mem_cons] at hp
      rcases hp with hp | hp
      · subst hp
        exact h (k, inner) (by simp)
      · exact ih (fun q hq => h q (List.mem_cons_of_mem _ hq)) p hp

theorem innersNodup_tagRowStep (m : List (Int × List (String × Finset Int)))
    (rec : List String) (h : InnersNodup m) : InnersNodup (tagRowStep m rec) := by
  simp only [tagRowStep]
  split_ifs with h1 h2
  · exact h
  · exact innersNodup_insertUserTF _ _ _ _ h
  · exact h

theorem innersNodup_tagFrequency (rows : List (List String)) :
    InnersNodup (tagFrequency rows) := by
  rw [tagFrequency]
  have : ∀ m, InnersNodup m → InnersNodup (List.foldl tagRowStep m rows) := by
    induction rows with
    | nil => intro m hm; exact hm
    | cons rec rows ih =>
      intro m hm
      exact ih _ (innersNodup_tagRowStep m rec hm)
  exact this [] (by intro p hp; cases hp)

theorem alookup_mem {κ α : Type} [DecidableEq κ] (l : List (κ × α)) (k : κ) (v : α)
    (h : alookup l k = some v) : (k, v) ∈ l := by
  induction l with
  | nil => simp [alookup] at h
  | cons p rest ih =>
    obtain ⟨k0, v0⟩ := p
    by_cases h0 : k0 = k
    · subst h0
      simp [alookup] at h
      subst h
      simp
    · simp only [alookup, if_neg h0] at h
      exact List.mem_cons_of_mem _ (ih h)

theorem mem_alookup {κ α : Type} [DecidableEq κ] (l : List (κ × α)) (k : κ) (v : α)
    (hnd : (l.map Prod.fst).Nodup) (h : (k, v) ∈ l) : alookup l k = some v := by
  induction l with
  | nil => cases h
  | cons p rest ih =>
    obtain ⟨k0, v0⟩ := p
    simp only [List.map_cons, List.nodup_cons] at hnd
    rcases List.mem_cons.mp h with h1 | h1
    · cases h1
      simp [alookup]
    · have hk : k0 ≠ k := by
        intro hkk
        subst hkk
        exact hnd.1 (List.mem_map_of_mem Prod.fst h1)
      simp only [alookup, if_neg hk]
      exact ih hnd.2 h1

theorem length_truncTags (l : List UserTagWithFrequency) : (truncTags l).length ≤ 10 := by
  unfold truncTags
  split_ifs with h
  · simp
  · omega

theorem truncTags_sublist (l : List UserTagWithFrequency) : (truncTags l).Sublist l := by
  unfold truncTags
  split_ifs with h
  · exact List.take_sublist 10 l
  · exact List.Sublist.refl l

/-- Every entry of the per-movie tag list carries exactly the distinct
contributor count of its tag. -/
theorem movieTagList_frequency (rows : List (List String)) (mid : Int) :
    ∀ e ∈ movieTagList rows mid,
      e.frequency = (contributorSetSpec rows mid e.tag).card := by
  intro e he
  obtain ⟨p, hp, rfl⟩ := List.mem_map.mp he
  rcases hl : alookup (tagFrequency rows) mid with _ | inner
  · rw [lookupMovieTF, hl] at hp
    cases hp
  · rw [lookupMovieTF, hl] at hp
    have hnd : (inner.map Prod.fst).Nodup :=
      innersNodup_tagFrequency rows (mid, inner) (alookup_mem _ _ _ hl)
    have hlk : lookupTagUsers inner p.1 = p.2 := by
      rw [lookupTagUsers, mem_alookup inner p.1 p.2 hnd (by simpa using hp)]
      rfl
    have := tagFrequency_users_eq rows mid p.1
    rw [lookupMovieTF, hl] at this
    simp only [Option.getD_some] at this
    rw [hlk] at this
    simp [← this]

/-- Distinct entries of the per-movie tag list have distinct tags. -/
theorem movieTagList_tags_pairwise_ne (rows : List (List String)) (mid : Int) :
    (movieTagList rows mid).Pairwise (fun a b => a.tag ≠ b.tag) := by
  rcases hl : alookup (tagFrequency rows) mid with _ | inner
  · rw [movieTagList, lookupMovieTF, hl]
    simp
  · rw [movieTagList, lookupMovieTF, hl]
    have hnd : (inner.map Prod.fst).Nodup :=
      innersNodup_tagFrequency rows (mid, inner) (alookup_mem _ _ _ hl)
    have hpw : inner.Pairwise (fun p q => p.1 ≠ q.1) := List.pairwise_map.mp hnd
    exact List.pairwise_map.mpr (hpw.imp (fun h => h))

/-- C2: for every key and normalized tag, the contributor count computed by
the `LoadUserTags` aggregation is the cardinality of the set of distinct
contributor ids that assigned the tag to the key, and a duplicate
assignment by an already-counted contributor leaves the count unchanged. -/
theorem C2_contributor_count (rows : List (List String)) (mid : Int) (tag : String) :
    (lookupTagUsers (lookupMovieTF (tagFrequency rows) mid) tag).card
        = (contributorSetSpec rows mid tag).card
    ∧ ∀ (rec : List String) (u : Int), tagRowContributor mid tag rec = some u →
        u ∈ contributorSetSpec rows mid tag →
        (lookupTagUsers (lookupMovieTF (tagFrequency (rows ++ [rec])) mid) tag).card
          = (lookupTagUsers (lookupMovieTF (tagFrequency rows) mid) tag).card := by
  constructor
  · rw [tagFrequency_users_eq]
  · intro rec u hrec hu
    rw [tagFrequency_users_eq, tagFrequency_users_eq]
    have : contributorSetSpec (rows ++ [rec]) mid tag = contributorSetSpec rows mid tag := by
      rw [contributorSetSpec, contributorSetSpec, List.filterMap_append]
      rw [List.toFinset_append]
      have : ([rec].filterMap (tagRowContributor mid tag)).toFinset = {u} := by
        simp [List.filterMap, hrec]
      rw [this]
      rw [Finset.union_eq_left]
      simpa [contributorSetSpec] using hu
    rw [this]

/-- C2 witness (end-to-end scenario 3): rows `(7,5,"Pixar")`, `(8,5,"pixar ")`,
`(7,5,"pixar")` give tag `"pixar"` exactly two distinct contributors, and a
fourth duplicate assignment by contributor 7 leaves the count unchanged. -/
theorem C2_contributor_count_witness :
    (lookupTagUsers (lookupMovieTF (tagFrequency
        [["7", "5", "Pixar", "100"], ["8", "5", "pixar ", "101"],
         ["7", "5", "pixar", "102"]]) 5) "pixar").card
      = (contributorSetSpec
          [["7", "5", "Pixar", "100"], ["8", "5", "pixar ", "101"],
           ["7", "5", "pixar", "102"]] 5 "pixar").card
    ∧ (lookupTagUsers (lookupMovieTF (tagFrequency
          ([["7", "5", "Pixar", "100"], ["8", "5", "pixar ", "101"],
            ["7", "5", "pixar", "102"]] ++ [["7", "5", "pixar", "103"]])) 5) "pixar").card
        = (lookupTagUsers (lookupMovieTF (tagFrequency
            [["7", "5", "Pixar", "100"], ["8", "5", "pixar ", "101"],
             ["7", "5", "pixar", "102"]]) 5) "pixar").card :=
  ⟨(C2_contributor_count _ 5 "pixar").1,
   (C2_contributor_count _ 5 "pixar").2 ["7", "5", "pixar", "103"] 7
     (by decide) (by decide)⟩

/-- C3: for every key the ranked tag list keeps at most ten tags, and any
two entries appear in strictly descending distinct-contributor order with
ties broken by ascending tag order. -/
theorem C3_ranked_tag_list (rows : List (List String)) (mid : Int) :
    (rankedTagList rows mid).length ≤ 10
    ∧ (rankedTagList rows mid).Pairwise (fun a b =>
        (contributorSetSpec rows mid b.tag).card < (contributorSetSpec rows mid a.tag).card
        ∨ ((contributorSetSpec rows mid a.tag).card = (contributorSetSpec rows mid b.tag).card
            ∧ strLt a.tag b.tag)) := by
  constructor
  · exact length_truncTags _
  · have hsorted : (List.insertionSort tagOrder (movieTagList rows mid)).Pairwise tagOrder :=
      List.sorted_insertionSort tagOrder _
    have hperm : (List.insertionSort tagOrder (movieTagList rows mid)).Perm
        (movieTagList rows mid) := List.perm_insertionSort _ _
    have hne : (List.insertionSort tagOrder (movieTagList rows mid)).Pairwise
        (fun a b => a.tag ≠ b.tag) :=
      (hperm.pairwise_iff (fun h => Ne.symm h)).mpr (movieTagList_tags_pairwise_ne rows mid)
    have hcomb := hsorted.and hne
    have hstrict : (List.insertionSort tagOrder (movieTagList rows mid)).Pairwise
        (fun a b =>
          (contributorSetSpec rows mid b.tag).card < (contributorSetSpec rows mid a.tag).card
          ∨ ((contributorSetSpec rows mid a.tag).card = (contributorSetSpec rows mid b.tag).card
              ∧ strLt a.tag b.tag)) := by
      apply List.Pairwise.imp_of_mem ?_ hcomb
      intro a b ha hb h
      have hca : a.frequency = (contributorSetSpec rows mid a.tag).card :=
        movieTagList_frequency rows mid a (hperm.mem_iff.mp ha)
      have hcb : b.frequency = (contributorSetSpec rows mid b.tag).card :=
        movieTagList_frequency rows mid b (hperm.mem_iff.mp hb)
      obtain ⟨hord, hneq⟩ := h
      rcases hord with hlt | ⟨heq, hle⟩
      · exact Or.inl (hca ▸ hcb ▸ hlt)
      · exact Or.inr ⟨hca ▸ hcb ▸ heq, hle, hneq⟩
    exact hstrict.sublist (truncTags_sublist _)

/-- C3 witness: three tags for key 5 with contributor counts 2, 1, 1 rank as
`pixar` (2), then `animation` before `cartoon` on the tie. -/
theorem C3_ranked_tag_list_witness :
    (rankedTagList
        [["7", "5", "Pixar", "100"], ["8", "5", "pixar ", "101"],
         ["7", "5", "cartoon", "102"], ["8", "5", "animation", "103"]] 5).length ≤ 10
    ∧ loadUserTagsFor
        [["7", "5", "Pixar", "100"], ["8", "5", "pixar ", "101"],
         ["7", "5", "cartoon", "102"], ["8", "5", "animation", "103"]] 5
        = ["pixar", "animation", "cartoon"] :=
  ⟨(C3_ranked_tag_list _ 5).1, by decide⟩

/-! ### Identifier Mapper (`mappers.IDMapper`)

The `pc4_etl/internal/mappers` package itself is not among the provided
sources; only its callers (`ProcessMovies`, `ProcessUsers`,
`LoadSimilarities`, `main`) are.  The definitions below are therefore
modelled from the specification of its contract. -/

/-- Modelled from the spec: the state of `mappers.IDMapper` (whose source
file is missing) — a key→index table plus the changed flag maintained by
`GetOrCreate` and read by `HasChanged`. -/
structure IDMapper where
  mapping : List (Int × Int)
  changed : Bool

/-- Modelled from the spec: the largest index currently assigned, if any. -/
def maxIndex : List (Int × Int) → Option Int
  | [] => none
  | (_, v) :: rest =>
    match maxIndex rest with
    | none => some v
    | some m => some (max v m)

/-- Modelled from the spec: the next unused index — one greater than the
current maximum, starting at 0 for an empty table. -/
def nextIndex (m : List (Int × Int)) : Int :=
  match maxIndex m with
  | none => 0
  | some v => v + 1

/-- Modelled from the spec: `GetOrCreate(key)` — return the existing index
if the key is mapped, otherwise assign the next unused index and mark the
table changed.  (The concurrency of the real method is out of scope of
this sequential model; the spec requires each assignment to be one
indivisible step, which a single function application is.) -/
def getOrCreate (s : IDMapper) (key : Int) : Int × IDMapper :=
  match alookup s.mapping key with
  | some idx => (idx, s)
  | none =>
    let idx := nextIndex s.mapping
    (idx, ⟨(key, idx) :: s.mapping, true⟩)

/-- Sequential iteration of `GetOrCreate` over a key list, returning the
assigned indices in order together with the final state. -/
def getOrCreateAll (s : IDMapper) : List Int → List Int × IDMapper
  | [] => ([], s)
  | k :: ks =>
    let r := getOrCreate s k
    let rest := getOrCreateAll r.2 ks
    (r.1 :: rest.1, rest.2)

theorem maxIndex_cons_nextIndex (m : List (Int × Int)) (k : Int) :
    nextIndex ((k, nextIndex m) :: m) = nextIndex m + 1 := by
  rcases h : maxIndex m with _ | v
  · simp [nextIndex, maxIndex, h]
  · simp only [nextIndex, maxIndex, h]
    rw [max_eq_left (by omega)]

/-- After a fresh assignment every other key keeps its lookup result. -/
theorem alookup_getOrCreate_ne (s : IDMapper) (k k' : Int) (h : k' ≠ k) :
    alookup (getOrCreate s k).2.mapping k' = alookup s.mapping k' := by
  rcases hl : alookup s.mapping k with _ | idx
  · simp [getOrCreate, hl, alookup, Ne.symm h]
  · simp [getOrCreate, hl]

/-- C1: `GetOrCreate` returns the stored index for a mapped key; for a
never-seen key it assigns the next unused index (one greater than the
current maximum, 0 for an empty table), marks the table changed and stores
the assignment, so a second call with the same key returns the same index;
and over any list of distinct unseen keys the assigned indices are exactly
`start, start+1, …` — distinct, strictly increasing, and gap-free relative
to the starting point. -/
theorem C1_getOrCreate (s : IDMapper) :
    (∀ k i, alookup s.mapping k = some i → getOrCreate s k = (i, s))
    ∧ (∀ k, alookup s.mapping k = none →
        (getOrCreate s k).1 = nextIndex s.mapping
        ∧ (getOrCreate s k).2.changed = true
        ∧ alookup (getOrCreate s k).2.mapping k = some (nextIndex s.mapping))
    ∧ (∀ k, alookup s.mapping k = none →
        (getOrCreate (getOrCreate s k).2 k).1 = (getOrCreate s k).1)
    ∧ (∀ ks : List Int, ks.Nodup → (∀ k ∈ ks, alookup s.mapping k = none) →
        (getOrCreateAll s ks).1
          = (List.range ks.length).map (fun (j : Nat) => nextIndex s.mapping + (j : Int))
        ∧ (getOrCreateAll s ks).1.Pairwise (fun a b => a < b)) := by
  refine ⟨?_, ?_, ?_, ?_⟩
  · intro k i h
    simp [getOrCreate, h]
  · intro k h
    simp [getOrCreate, h, alookup]
  · intro k h
    simp [getOrCreate, h, alookup]
  · intro ks
    have main : ∀ (t : IDMapper) (ks : List Int), ks.Nodup →
        (∀ k ∈ ks, alookup t.mapping k = none) →
        (getOrCreateAll t ks).1
          = (List.range ks.length).map (fun (j : Nat) => nextIndex t.mapping + (j : Int)) := by
      intro t ks
      induction ks generalizing t with
      | nil => intro _ _; simp [getOrCreateAll]
      | cons k ks ih =>
        intro hnd hfresh
        have hk : alookup t.mapping k = none := hfresh k (by simp)
        have hstep : getOrCreate t k =
            (nextIndex t.mapping, ⟨(k, nextIndex t.mapping) :: t.mapping, true⟩) := by
          simp [getOrCreate, hk]
        have hfresh2 : ∀ k' ∈ ks, alookup (getOrCreate t k).2.mapping k' = none := by
          intro k' hk'
          have hne : k' ≠ k := by
            intro he
            subst he
            exact (List.nodup_cons.mp hnd).1 hk'
          rw [alookup_getOrCreate_ne t k k' hne]
          exact hfresh k' (List.mem_cons_of_mem _ hk')
        have hnext : nextIndex (getOrCreate t k).2.mapping = nextIndex t.mapping + 1 := by
          rw [hstep]
          exact maxIndex_cons_nextIndex t.mapping k
        simp only [getOrCreateAll]
        rw [ih _ (List.nodup_cons.mp hnd).2 hfresh2, hnext, hstep]
        simp only [List.length_cons]
        rw [List.range_succ_eq_map]
        simp only [List.map_cons, List.map_map]
        refine List.cons_eq_cons.mpr ⟨by simp, ?_⟩
        apply List.map_congr_left
        intro j _
        simp only [Function.comp_apply]
        push_cast
        ring
    intro hnd hfresh
    have heq := main s ks hnd hfresh
    refine ⟨heq, ?_⟩
    rw [heq]
    exact (List.pairwise_lt_range ks.length).map _ (fun a b hab => by omega)

/-- C1 witness: over the table `{5 ↦ 2}`, key 5 returns 2 without change;
fresh keys 7 and 9 receive the distinct consecutive indices 3 and 4. -/
theorem C1_getOrCreate_witness :
    getOrCreate ⟨[(5, 2)], false⟩ 5 = (2, ⟨[(5, 2)], false⟩)
    ∧ (getOrCreate ⟨[(5, 2)], false⟩ 7).1 = 3
    ∧ (getOrCreate ⟨[(5, 2)], false⟩ 7).2.changed = true
    ∧ (getOrCreateAll ⟨[(5, 2)], false⟩ [7, 9]).1 = [3, 4] := by
  refine ⟨(C1_getOrCreate ⟨[(5, 2)], false⟩).1 5 2 (by decide), ?_, ?_, ?_⟩
  · have := ((C1_getOrCreate ⟨[(5, 2)], false⟩).2.1 7 (by decide)).1
    rw [this]
    decide
  · exact ((C1_getOrCreate ⟨[(5, 2)], false⟩).2.1 7 (by decide)).2.1
  · have := ((C1_getOrCreate ⟨[(5, 2)], false⟩).2.2.2 [7, 9] (by decide)
      (by decide)).1
    rw [this]
    decide

/-! ### Streaming Stats Accumulator (`loaders.LoadRatingStats`) -/

/-- The per-movie accumulator of `LoadRatingStats` (lines 262-266). -/
structure RatingAcc where
  sum : ℚ
  count : Nat
  lastTs : Int
deriving DecidableEq

/-- Lines 287-291: add one parsed row to an accumulator. -/
def bumpAcc (a : RatingAcc) (rating : ℚ) (ts : Int) : RatingAcc :=
  ⟨fadd a.sum rating, a.count + 1, if ts > a.lastTs then ts else a.lastTs⟩

/-- Lines 283-291: fetch-or-create the accumulator of `mid` and bump it. -/
def updateAcc : List (Int × RatingAcc) → Int → ℚ → Int → List (Int × RatingAcc)
  | [], mid, rating, ts => [(mid, bumpAcc ⟨0, 0, 0⟩ rating ts)]
  | (k, a) :: rest, mid, rating, ts =>
    if k = mid then (k, bumpAcc a rating ts) :: rest
    else (k, a) :: updateAcc rest mid rating ts

/-- One row of the ratings scan (lines 270-292): rows of fewer than four
fields are skipped; `movieId`, `rating`, `timestamp` parse with discarded
errors (defaulting to zero) and the accumulator of `movieId` is bumped. -/
def ratingRowStep (accs : List (Int × RatingAcc)) (rec : List String) :
    List (Int × RatingAcc) :=
  if rec.length < 4 then accs
  else
    updateAcc accs (goAtoi (rec.getD 1 ""))
      ((parseGoFloat (rec.getD 2 "")).getD 0)
      ((parseGoInt (rec.getD 3 "")).getD 0)

/-- The accumulation pass of `LoadRatingStats`. -/
def ratingAccums (rows : List (List String)) : List (Int × RatingAcc) :=
  rows.foldl ratingRowStep []

/-! #### RFC 3339 rendering of `time.Unix(ts, 0).UTC()` -/

/-- Zero-padded two-digit decimal. -/
def pad2 (n : Nat) : String :=
  if n < 10 then "0" ++ toString n else toString n

/-- Zero-padded four-digit decimal. -/
def pad4 (n : Nat) : String :=
  if n < 10 then "000" ++ toString n
  else if n < 100 then "00" ++ toString n
  else if n < 1000 then "0" ++ toString n
  else toString n

/-- Civil date (year, month, day) of a day count since 1970-01-01
(proleptic Gregorian; the standard era-based conversion). -/
def civilFromDays (z : Nat) : Nat × Nat × Nat :=
  let z' := z + 719468
  let era := z' / 146097
  let doe := z' % 146097
  let yoe := (doe - doe / 1460 + doe / 36524 - doe / 146096) / 365
  let y := yoe + era * 400
  let doy := doe - (365 * yoe + yoe / 4 - yoe / 100)
  let mp := (5 * doy + 2) / 153
  let d := doy - (153 * mp + 2) / 5 + 1
  let m := if mp < 10 then mp + 3 else mp - 9
  (if m ≤ 2 then y + 1 else y, m, d)

/-- `time.Unix(ts, 0).UTC().Format(time.RFC3339)` for the non-negative
timestamps this pipeline renders (the accumulator only ever holds a
non-negative maximum). -/
def formatRFC3339 (ts : Int) : String :=
  let t := ts.toNat
  let days := t / 86400
  let secs := t % 86400
  let ymd := civilFromDays days
  pad4 ymd.1 ++ "-" ++ pad2 ymd.2.1 ++ "-" ++ pad2 ymd.2.2 ++ "T" ++
    pad2 (secs / 3600) ++ ":" ++ pad2 (secs % 3600 / 60) ++ ":" ++
    pad2 (secs % 60) ++ "Z"

/-- `models.RatingStats` (`LastRatedAt` carries `omitempty`: the empty
string is the absent field). -/
structure RatingStats where
  average : ℚ
  count : Nat
  lastRatedAt : String
deriving DecidableEq

/-- The finalization loop of `LoadRatingStats` (lines 294-309): keys with
`count > 0` produce an entry with `average = sum / count` and, when the
maximum timestamp is positive, the RFC 3339 rendering of it. -/
def finalizeStats (accs : List (Int × RatingAcc)) : List (Int × RatingStats) :=
  accs.filterMap fun p =>
    if p.2.count > 0 then
      some (p.1, ⟨fdivNat p.2.sum p.2.count, p.2.count,
        if p.2.lastTs > 0 then formatRFC3339 p.2.lastTs else ""⟩)
    else none

/-- `loaders.LoadRatingStats` on an already-split row list. -/
def loadRatingStats (rows : List (List String)) : List (Int × RatingStats) :=
  finalizeStats (ratingAccums rows)

/-- Specification-side view: whether a row is accepted by the scan and
attributed to key `mid`. -/
def ratingRowContributesTo (rec : List String) (mid : Int) : Prop :=
  4 ≤ rec.length ∧ goAtoi (rec.getD 1 "") = mid

instance (rec : List String) (mid : Int) : Decidable (ratingRowContributesTo rec mid) := by
  unfold ratingRowContributesTo
  infer_instance

theorem alookup_updateAcc_self (accs : List (Int × RatingAcc)) (mid : Int)
    (r : ℚ) (ts : Int) :
    alookup (updateAcc accs mid r ts) mid
      = some (bumpAcc ((alookup accs mid).getD ⟨0, 0, 0⟩) r ts) := by
  induction accs with
  | nil => simp [updateAcc, alookup]
  | cons p rest ih =>
    obtain ⟨k, a⟩ := p
    by_cases h : k = mid
    · simp [updateAcc, alookup, h]
    · simpa [updateAcc, alookup, h] using ih

theorem alookup_updateAcc_ne (accs : List (Int × RatingAcc)) (mid mid' : Int)
    (r : ℚ) (ts : Int) (h : mid' ≠ mid) :
    alookup (updateAcc accs mid' r ts) mid = alookup accs mid := by
  induction accs with
  | nil => simp [updateAcc, alookup, h]
  | cons p rest ih =>
    obtain ⟨k, a⟩ := p
    by_cases h0 : k = mid'
    · subst h0
      simp [updateAcc, alookup, h]
    · by_cases h1 : k = mid
      · simp [updateAcc, alookup, h0, h1, Ne.symm h]
      · simpa [updateAcc, alookup, h0, h1] using ih

theorem keys_updateAcc (accs : List (Int × RatingAcc)) (mid : Int) (r : ℚ) (ts : Int) :
    (updateAcc accs mid r ts).map Prod.fst =
      if mid ∈ accs.map Prod.fst then accs.map Prod.fst else accs.map Prod.fst ++ [mid] := by
  induction accs with
  | nil => simp [updateAcc]
  | cons p rest ih =>
    obtain ⟨k, a⟩ := p
    by_cases h : k = mid
    · simp [updateAcc, h]
    · simp only [updateAcc, if_neg h, List.map_cons, ih]
      by_cases hmem : mid ∈ rest.map Prod.fst
      · simp [hmem, Ne.symm h]
      · simp [hmem, Ne.symm h]

theorem nodup_keys_ratingAccums (rows : List (List String)) :
    ((ratingAccums rows).map Prod.fst).Nodup := by
  rw [ratingAccums]
  have main : ∀ accs, (accs.map (Prod.fst (α := Int) (β := RatingAcc))).Nodup →
      ((List.foldl ratingRowStep accs rows).map Prod.fst).Nodup := by
    induction rows with
    | nil => intro accs h; exact h
    | cons rec rows ih =>
      intro accs h
      apply ih
      simp only [ratingRowStep]
      split_ifs with h1
      · exact h
      · rw [keys_updateAcc]
        split_ifs with h2
        · exact h
        · rw [List.nodup_append]
          refine ⟨h, by simp, ?_⟩
          intro a ha hmem
          rw [List.mem_singleton] at hmem
          subst hmem
          exact h2 ha
  exact main [] (by simp)

/-- A key-preserving `filterMap` cannot invent a binding for an absent key. -/
theorem alookup_filterMap_keyPreserving {κ α β : Type} [DecidableEq κ]
    (f : κ × α → Option (κ × β)) (hf : ∀ p q, f p = some q → q.1 = p.1)
    (l : List (κ × α)) (k : κ) (hk : k ∉ l.map Prod.fst) :
    alookup (l.filterMap f) k = none := by
  induction l with
  | nil => simp [alookup]
  | cons p rest ih =>
    simp only [List.map_cons, List.mem_cons, not_or] at hk
    rw [List.filterMap_cons]
    rcases hfp : f p with _ | q
    · exact ih hk.2
    · have hq : q.1 = p.1 := hf p q hfp
      obtain ⟨k1, v1⟩ := q
      simp only at hq
      subst hq
      simp only [alookup]
      rw [if_neg (fun he => hk.1 he.symm)]
      exact ih hk.2

theorem alookup_finalizeStats (accs : List (Int × RatingAcc)) (mid : Int)
    (hnd : (accs.map Prod.fst).Nodup) :
    alookup (finalizeStats accs) mid =
      match alookup accs mid with
      | none => none
      | some a =>
        if a.count > 0 then
          some ⟨fdivNat a.sum a.count, a.count,
            if a.lastTs > 0 then formatRFC3339 a.lastTs else ""⟩
        else none := by
  induction accs with
  | nil => simp [finalizeStats, alookup]
  | cons p rest ih =>
    obtain ⟨k, a⟩ := p
    simp only [List.map_cons, List.nodup_cons] at hnd
    have hconsPos : a.count > 0 → finalizeStats ((k, a) :: rest)
        = (k, (⟨fdivNat a.sum a.count, a.count,
            if a.lastTs > 0 then formatRFC3339 a.lastTs else ""⟩ : RatingStats))
          :: finalizeStats rest := by
      intro hc
      have hf : (fun p : Int × RatingAcc =>
          if p.2.count > 0 then
            some (p.1, (⟨fdivNat p.2.sum p.2.count, p.2.count,
              if p.2.lastTs > 0 then formatRFC3339 p.2.lastTs else ""⟩ : RatingStats))
          else none) (k, a)
          = some (k, (⟨fdivNat a.sum a.count, a.count,
              if a.lastTs > 0 then formatRFC3339 a.lastTs else ""⟩ : RatingStats)) := by
        simp only []
        rw [if_pos hc]
      simp only [finalizeStats]
      exact List.filterMap_cons_some hf
    have hconsNeg : ¬ a.count > 0 → finalizeStats ((k, a) :: rest)
        = finalizeStats rest := by
      intro hc
      have hf : (fun p : Int × RatingAcc =>
          if p.2.count > 0 then
            some (p.1, (⟨fdivNat p.2.sum p.2.count, p.2.count,
              if p.2.lastTs > 0 then formatRFC3339 p.2.lastTs else ""⟩ : RatingStats))
          else none) (k, a) = none := by
        simp only []
        rw [if_neg hc]
      simp only [finalizeStats]
      exact List.filterMap_cons_none hf
    by_cases h : k = mid
    · subst h
      by_cases hc : a.count > 0
      · rw [hconsPos hc]
        simp [alookup, hc]
      · have hnone : alookup (finalizeStats rest) k = none := by
          simp only [finalizeStats]
          apply alookup_filterMap_keyPreserving _ ?_ rest k hnd.1
          intro p q he
          by_cases hq : p.2.count > 0
          · rw [if_pos hq] at he
            exact (congrArg Prod.fst (Option.some_inj.mp he)).symm
          · rw [if_neg hq] at he
            cases he
        rw [hconsNeg hc, hnone]
        simp [alookup, hc]
    · by_cases hc : a.count > 0
      · rw [hconsPos hc]
        simp only [alookup, if_neg h]
        rw [ih hnd.2]
      · rw [hconsNeg hc, ih hnd.2]
        simp [alookup, h]

theorem alookup_ratingAccums_of_no_contribution (rows : List (List String)) (mid : Int)
    (h : ∀ rec ∈ rows, ¬ ratingRowContributesTo rec mid) :
    alookup (ratingAccums rows) mid = none := by
  rw [ratingAccums]
  have main : ∀ accs, alookup accs mid = none →
      alookup (List.foldl ratingRowStep accs rows) mid = none := by
    induction rows with
    | nil => intro accs ha; exact ha
    | cons rec rows ih =>
      intro accs ha
      apply fun hh => ih (fun r hr => h r (List.mem_cons_of_mem _ hr)) _ hh
      simp only [ratingRowStep]
      split_ifs with h1
      · exact ha
      · have hne : goAtoi (rec.getD 1 "") ≠ mid := by
          intro he
          exact h rec (by simp) ⟨by omega, he⟩
        rw [alookup_updateAcc_ne _ _ _ _ _ hne]
        exact ha
  exact main [] (by simp [alookup])

theorem append_Z_ne_empty (s : String) : s ++ "Z" ≠ "" := by
  intro h
  have hlen : (s ++ "Z").length = ("" : String).length := by rw [h]
  rw [String.length_append] at hlen
  have h1 : ("Z" : String).length = 1 := rfl
  have h0 : ("" : String).length = 0 := rfl
  omega

theorem formatRFC3339_ne_empty (ts : Int) : formatRFC3339 ts ≠ "" := by
  unfold formatRFC3339
  apply append_Z_ne_empty

/-- C4 counterexample: the only row of key 5 has an unparsable rating
field, so the key has zero valid rating rows in the spec's sense
(§3: malformed = wrong arity or unparsable numeric field, discarded) —
yet the aggregation emits an entry for key 5 (count 1, average 0, the
last-rated field rendered from the row's timestamp), falsifying the
claim's no-entry conjunct: the scan discards the strconv error and counts
the row with rating 0. -/
theorem C4_counterexample :
    parseGoFloat "abc" = none
    ∧ alookup (loadRatingStats [["1", "5", "abc", "100"]]) 5
        = some ⟨0, 1, "1970-01-01T00:01:40Z"⟩ := by
  decide

/-- C4 amended: every entry of the rating aggregation output satisfies
`average = sum / count` with a positive count and carries the RFC 3339
rendering of the maximum timestamp exactly when that maximum is positive
(the empty/absent field otherwise); and a key with no scan-accepted row
attributed to it — no row of at least four fields whose movieId field
parses to the key — has no entry at all.  (A key whose rows are accepted
but carry unparsable rating fields still receives an entry, the failed
fields defaulting to zero.) -/
theorem C4_rating_stats (rows : List (List String)) (mid : Int) :
    (∀ st, alookup (loadRatingStats rows) mid = some st →
      ∃ a, alookup (ratingAccums rows) mid = some a
        ∧ 0 < a.count
        ∧ st.average = a.sum / (a.count : ℚ)
        ∧ st.count = a.count
        ∧ (st.lastRatedAt ≠ "" ↔ 0 < a.lastTs)
        ∧ (0 < a.lastTs → st.lastRatedAt = formatRFC3339 a.lastTs))
    ∧ ((∀ rec ∈ rows, ¬ ratingRowContributesTo rec mid) →
        alookup (loadRatingStats rows) mid = none) := by
  constructor
  · intro st hst
    rw [loadRatingStats, alookup_finalizeStats _ _ (nodup_keys_ratingAccums rows)] at hst
    rcases hl : alookup (ratingAccums rows) mid with _ | a
    · rw [hl] at hst
      cases hst
    · rw [hl] at hst
      simp only at hst
      by_cases hc : a.count > 0
      · rw [if_pos hc] at hst
        refine ⟨a, rfl, hc, ?_⟩
        obtain rfl := Option.some_inj.mp hst
        refine ⟨by simpa using fdivNat_eq_div a.sum a.count, rfl, ?_, ?_⟩
        · by_cases hts : a.lastTs > 0
          · simpa [hts] using formatRFC3339_ne_empty a.lastTs
          · simp [hts]
        · intro hts
          simp [hts]
      · rw [if_neg hc] at hst
        cases hst
  · intro h
    rw [loadRatingStats, alookup_finalizeStats _ _ (nodup_keys_ratingAccums rows),
      alookup_ratingAccums_of_no_contribution rows mid h]

/-- C4 witness: two rows for key 5 (ratings 3.5 and 4.5, timestamps 100 and
50) give average 4, count 2, last-rated `1970-01-01T00:01:40Z`; key 99 has
no rows and no entry. -/
theorem C4_rating_stats_witness :
    (∃ a, alookup (ratingAccums [["1", "5", "3.5", "100"], ["2", "5", "4.5", "50"]]) 5
        = some a
      ∧ 0 < a.count
      ∧ (4 : ℚ) = a.sum / (a.count : ℚ)
      ∧ 2 = a.count
      ∧ (("1970-01-01T00:01:40Z" : String) ≠ "" ↔ 0 < a.lastTs)
      ∧ (0 < a.lastTs → "1970-01-01T00:01:40Z" = formatRFC3339 a.lastTs))
    ∧ alookup (loadRatingStats [["1", "5", "3.5", "100"], ["2", "5", "4.5", "50"]]) 99
        = none := by
  constructor
  · have h := (C4_rating_stats [["1", "5", "3.5", "100"], ["2", "5", "4.5", "50"]] 5).1
      ⟨4, 2, "1970-01-01T00:01:40Z"⟩ (by decide)
    exact h
  · exact (C4_rating_stats [["1", "5", "3.5", "100"], ["2", "5", "4.5", "50"]] 99).2
      (by decide)

/-- C10 counterexample: the row `["1", "5", "abc", "100"]` has an
unparsable rating field, yet it is not discarded — it creates the
accumulator of key 5 with count 1 (and rating 0 added to the sum), so it
does affect that key's accumulated count, where the claim requires it to
contribute nothing to any accumulator. -/
theorem C10_counterexample :
    parseGoFloat "abc" = none
    ∧ alookup (ratingAccums [["1", "5", "abc", "100"]]) 5
        = some ⟨0, 1, 100⟩
    ∧ alookup (ratingAccums []) 5 = none := by
  decide

/-- C10 amended: a row of fewer than four fields is discarded without
touching any accumulator; a four-field row whose rating does not parse is
still processed — the failed field defaults to 0, so the key parsed from
the row gains one count while its sum is unchanged, and all other keys
are unaffected. -/
theorem C10_malformed_rows (accs : List (Int × RatingAcc)) (rec : List String) :
    (rec.length < 4 → ratingRowStep accs rec = accs)
    ∧ (4 ≤ rec.length → parseGoFloat (rec.getD 2 "") = none →
        ratingRowStep accs rec
          = updateAcc accs (goAtoi (rec.getD 1 "")) 0 ((parseGoInt (rec.getD 3 "")).getD 0)
        ∧ (∀ mid, mid ≠ goAtoi (rec.getD 1 "") →
            alookup (ratingRowStep accs rec) mid = alookup accs mid)
        ∧ ∃ a, alookup (ratingRowStep accs rec) (goAtoi (rec.getD 1 "")) = some a
            ∧ a.count = ((alookup accs (goAtoi (rec.getD 1 ""))).getD ⟨0, 0, 0⟩).count + 1
            ∧ a.sum = ((alookup accs (goAtoi (rec.getD 1 ""))).getD ⟨0, 0, 0⟩).sum) := by
  constructor
  · intro h
    simp [ratingRowStep, h]
  · intro hlen hpf
    have hstep : ratingRowStep accs rec
        = updateAcc accs (goAtoi (rec.getD 1 "")) 0 ((parseGoInt (rec.getD 3 "")).getD 0) := by
      unfold ratingRowStep
      rw [if_neg (Nat.not_lt.mpr hlen), hpf]
      rfl
    refine ⟨hstep, ?_, ?_⟩
    · intro mid hmid
      rw [hstep, alookup_updateAcc_ne _ _ _ _ _ (Ne.symm hmid)]
    · rw [hstep, alookup_updateAcc_self]
      refine ⟨_, rfl, rfl, ?_⟩
      simp [bumpAcc, fadd_eq_add]

/-- C10 witness for the amended statement: the short row `["1","5"]` leaves
the table unchanged; the row with rating `"abc"` updates key 5. -/
theorem C10_malformed_rows_witness :
    ratingRowStep [] ["1", "5"] = []
    ∧ ratingRowStep [] ["1", "5", "abc", "100"]
        = updateAcc [] (goAtoi "5") 0 ((parseGoInt "100").getD 0) := by
  refine ⟨(C10_malformed_rows [] ["1", "5"]).1 (by decide), ?_⟩
  exact ((C10_malformed_rows [] ["1", "5", "abc", "100"]).2 (by decide) (by decide)).1

/-! ### Relevance Filter (`loaders.LoadGenomeScores`) -/

/-- `models.GenomeTag`. -/
structure GenomeTag where
  tag : String
  relevance : ℚ
deriving DecidableEq

/-- Append a score to the group of `mid`, preserving encounter order
(Go `scores[movieId] = append(scores[movieId], …)`). -/
def appendScore : List (Int × List GenomeTag) → Int → GenomeTag →
    List (Int × List GenomeTag)
  | [], mid, g => [(mid, [g])]
  | (k, gs) :: rest, mid, g =>
    if k = mid then (k, gs ++ [g]) :: rest
    else (k, gs) :: appendScore rest mid g

/-- One row of the genome-scores scan (lines 115-137): rows of fewer than
three fields are skipped; `movieId`, `tagId`, `relevance` parse with
discarded errors; the entry is kept only when the relevance reaches the
threshold and the tag id resolves in the genome-tag table. -/
def genomeRowStep (genomeTagsMap : List (Int × String)) (minRelevance : ℚ)
    (m : List (Int × List GenomeTag)) (rec : List String) :
    List (Int × List GenomeTag) :=
  if rec.length < 3 then m
  else
    let movieId := goAtoi (rec.getD 0 "")
    let tagId := goAtoi (rec.getD 1 "")
    let relevance := (parseGoFloat (rec.getD 2 "")).getD 0
    if relevance ≥ minRelevance then
      match alookup genomeTagsMap tagId with
      | some tagName => appendScore m movieId ⟨tagName, relevance⟩
      | none => m
    else m

/-- The ordering used by the per-movie `sort.Slice` (lines 140-144):
relevance descending. -/
def relOrder (a b : GenomeTag) : Prop :=
  b.relevance ≤ a.relevance

instance : DecidableRel relOrder := by
  intro a b
  unfold relOrder
  infer_instance

instance : IsTotal GenomeTag relOrder := by
  constructor
  intro a b
  exact (le_total b.relevance a.relevance).imp (fun h => h) (fun h => h)

instance : IsTrans GenomeTag relOrder := by
  constructor
  intro a b c hab hbc
  exact le_trans hbc hab

/-- `loaders.LoadGenomeScores` on an already-split row list: group the
accepted entries, then sort every group by relevance descending. -/
def loadGenomeScores (rows : List (List String)) (genomeTagsMap : List (Int × String))
    (minRelevance : ℚ) : List (Int × List GenomeTag) :=
  (rows.foldl (genomeRowStep genomeTagsMap minRelevance) []).map
    (fun p => (p.1, List.insertionSort relOrder p.2))

/-- The per-movie group read, empty when the key is absent. -/
def lookupScores (m : List (Int × List GenomeTag)) (mid : Int) : List GenomeTag :=
  (alookup m mid).getD []

theorem lookupScores_appendScore_self (m : List (Int × List GenomeTag))
    (mid : Int) (g : GenomeTag) :
    lookupScores (appendScore m mid g) mid = lookupScores m mid ++ [g] := by
  induction m with
  | nil => simp [appendScore, lookupScores, alookup]
  | cons p rest ih =>
    obtain ⟨k, gs⟩ := p
    by_cases h : k = mid
    · simp [appendScore, lookupScores, alookup, h]
    · simpa [appendScore, lookupScores, alookup, h] using ih

theorem lookupScores_appendScore_ne (m : List (Int × List GenomeTag))
    (mid mid' : Int) (g : GenomeTag) (h : mid' ≠ mid) :
    lookupScores (appendScore m mid' g) mid = lookupScores m mid := by
  induction m with
  | nil => simp [appendScore, lookupScores, alookup, h]
  | cons p rest ih =>
    obtain ⟨k, gs⟩ := p
    by_cases h0 : k = mid'
    · subst h0
      simp [appendScore, lookupScores, alookup, h]
    · by_cases h1 : k = mid
      · simp [appendScore, lookupScores, alookup, h0, h1, Ne.symm h]
      · simpa [appendScore, lookupScores, alookup, h0, h1] using ih

/-- Membership invariant of the grouping fold: every retained entry reaches
the threshold and carries a label resolved from the genome-tag table. -/
theorem genomeFold_member_invariant (genomeTagsMap : List (Int × String))
    (minRelevance : ℚ) (rows : List (List String))
    (m : List (Int × List GenomeTag))
    (hm : ∀ mid, ∀ e ∈ lookupScores m mid,
      minRelevance ≤ e.relevance ∧ ∃ tid, alookup genomeTagsMap tid = some e.tag) :
    ∀ mid, ∀ e ∈ lookupScores
        (rows.foldl (genomeRowStep genomeTagsMap minRelevance) m) mid,
      minRelevance ≤ e.relevance ∧ ∃ tid, alookup genomeTagsMap tid = some e.tag := by
  induction rows generalizing m with
  | nil => exact hm
  | cons rec rows ih =>
    rw [List.foldl_cons]
    apply ih
    intro mid e he
    simp only [genomeRowStep] at he
    split_ifs at he with h1 h2
    · exact hm mid e he
    · rcases hl : alookup genomeTagsMap (goAtoi (rec.getD 1 "")) with _ | tagName
      · rw [hl] at he
        exact hm mid e he
      · rw [hl] at he
        by_cases hmid : goAtoi (rec.getD 0 "") = mid
        · rw [hmid] at he
          rw [lookupScores_appendScore_self] at he
          rcases List.mem_append.mp he with hin | hin
          · exact hm mid e hin
          · rw [List.mem_singleton] at hin
            subst hin
            exact ⟨h2, goAtoi (rec.getD 1 ""), hl⟩
        · rw [lookupScores_appendScore_ne _ _ _ _ hmid] at he
          exact hm mid e he
    · exact hm mid e he

/-- Group lookup commutes with mapping over the values of the table. -/
theorem alookup_map_value {κ α β : Type} [DecidableEq κ] (f : α → β)
    (l : List (κ × α)) (k : κ) :
    alookup (l.map (fun p => (p.1, f p.2))) k = (alookup l k).map f := by
  induction l with
  | nil => simp [alookup]
  | cons p rest ih =>
    obtain ⟨k0, v⟩ := p
    by_cases h : k0 = k
    · simp [alookup, h]
    · simp [alookup, h, ih]

/-- C5: every relevance entry retained by `LoadGenomeScores` has a score at
least the configured threshold and a label resolvable in the genome-tag
table, and every per-key group is sorted by score descending. -/
theorem C5_genome_scores (rows : List (List String))
    (genomeTagsMap : List (Int × String)) (minRelevance : ℚ) (mid : Int) :
    (∀ e ∈ lookupScores (loadGenomeScores rows genomeTagsMap minRelevance) mid,
      minRelevance ≤ e.relevance ∧ ∃ tid, alookup genomeTagsMap tid = some e.tag)
    ∧ (lookupScores (loadGenomeScores rows genomeTagsMap minRelevance) mid).Pairwise
        (fun a b => b.relevance ≤ a.relevance) := by
  have hgroup : lookupScores (loadGenomeScores rows genomeTagsMap minRelevance) mid
      = List.insertionSort relOrder
          (lookupScores (rows.foldl (genomeRowStep genomeTagsMap minRelevance) []) mid) := by
    rw [loadGenomeScores, lookupScores, lookupScores,
      alookup_map_value (List.insertionSort relOrder)]
    rcases alookup (rows.foldl (genomeRowStep genomeTagsMap minRelevance) []) mid
        with _ | gs
    · simp [List.insertionSort]
    · simp
  constructor
  · intro e he
    rw [hgroup, List.mem_insertionSort] at he
    exact genomeFold_member_invariant genomeTagsMap minRelevance rows []
      (by intro mid' e' he'; simp [lookupScores, alookup] at he') mid e he
  · rw [hgroup]
    exact List.sorted_insertionSort relOrder _

/-- C5 witness: with threshold 1/2, tag table `{101 ↦ alpha, 102 ↦ beta,
103 ↦ gamma}` and rows scoring 0.8, 0.4, 0.9 for key 5, the retained group
is sorted descending and the 0.9 `gamma` entry satisfies the invariant. -/
theorem C5_genome_scores_witness :
    (mkRat 1 2 ≤ (⟨"gamma", mkRat 9 10⟩ : GenomeTag).relevance
      ∧ ∃ tid, alookup ([(101, "alpha"), (102, "beta"), (103, "gamma")] : List (Int × String))
          tid = some "gamma")
    ∧ (lookupScores (loadGenomeScores
          [["5", "101", "0.8"], ["5", "102", "0.4"], ["5", "103", "0.9"], ["6", "101", "0.7"]]
          [(101, "alpha"), (102, "beta"), (103, "gamma")] (mkRat 1 2)) 5).Pairwise
        (fun a b => b.relevance ≤ a.relevance) :=
  ⟨(C5_genome_scores
      [["5", "101", "0.8"], ["5", "102", "0.4"], ["5", "103", "0.9"], ["6", "101", "0.7"]]
      [(101, "alpha"), (102, "beta"), (103, "gamma")] (mkRat 1 2) 5).1
      ⟨"gamma", mkRat 9 10⟩ (by decide),
   (C5_genome_scores
      [["5", "101", "0.8"], ["5", "102", "0.4"], ["5", "103", "0.9"], ["6", "101", "0.7"]]
      [(101, "alpha"), (102, "beta"), (103, "gamma")] (mkRat 1 2) 5).2⟩

/-! ### Neighbor Table Builder (`loaders.LoadSimilarities` and
`processors.ProcessSimilarities`) -/

/-- `models.Neighbor`. -/
structure Neighbor where
  movieId : Int
  iIdx : Int
  sim : ℚ
deriving DecidableEq

/-- Lines 404-409: build the reverse map iIdx → movieId from the forward
item map (Go map writes while ranging over the forward table). -/
def reverseMapOf (itemMap : List (Int × Int)) : List (Int × Int) :=
  itemMap.foldl (fun rm p => aset rm p.2 p.1) []

/-- Go `similarities[iIdx] = append(similarities[iIdx], neighbor)`. -/
def appendNeighbor : List (Int × List Neighbor) → Int → Neighbor →
    List (Int × List Neighbor)
  | [], i, n => [(i, [n])]
  | (k, ns) :: rest, i, n =>
    if k = i then (k, ns ++ [n]) :: rest
    else (k, ns) :: appendNeighbor rest i n

/-- One row of the similarities scan (lines 413-437): rows of fewer than
three fields are skipped; both indices must be positive; the target's
movieId is resolved through the reverse map (zero value when absent). -/
def simRowStep (reverseMap : List (Int × Int)) (m : List (Int × List Neighbor))
    (rec : List String) : List (Int × List Neighbor) :=
  if rec.length < 3 then m
  else
    let iIdx := goAtoi (rec.getD 0 "")
    let jIdx := goAtoi (rec.getD 1 "")
    let sim := (parseGoFloat (rec.getD 2 "")).getD 0
    if iIdx > 0 ∧ jIdx > 0 then
      appendNeighbor m iIdx ⟨(alookup reverseMap jIdx).getD 0, jIdx, sim⟩
    else m

/-- `loaders.LoadSimilarities` on an already-split row list. -/
def loadSimilarities (rows : List (List String)) (itemMap : List (Int × Int)) :
    List (Int × List Neighbor) :=
  rows.foldl (simRowStep (reverseMapOf itemMap)) []

/-- The per-source group read, empty when the source index is absent. -/
def lookupNeighbors (m : List (Int × List Neighbor)) (i : Int) : List Neighbor :=
  (alookup m i).getD []

/-- Lines 236-239 of `ProcessSimilarities`:
`if len(neighbors) > 20 { neighbors = neighbors[:20] }`. -/
def emitNeighbors (l : List Neighbor) : List Neighbor :=
  if l.length > 20 then l.take 20 else l

/-- Specification-side view: the neighbor a row contributes to source
index `iIdx`, if any, in encounter order. -/
def simRowNeighbor (reverseMap : List (Int × Int)) (iIdx : Int) (rec : List String) :
    Option Neighbor :=
  if rec.length < 3 then none
  else
    let i := goAtoi (rec.getD 0 "")
    let jIdx := goAtoi (rec.getD 1 "")
    let sim := (parseGoFloat (rec.getD 2 "")).getD 0
    if i > 0 ∧ jIdx > 0 ∧ i = iIdx then
      some ⟨(alookup reverseMap jIdx).getD 0, jIdx, sim⟩
    else none

theorem lookupNeighbors_appendNeighbor_self (m : List (Int × List Neighbor))
    (i : Int) (n : Neighbor) :
    lookupNeighbors (appendNeighbor m i n) i = lookupNeighbors m i ++ [n] := by
  induction m with
  | nil => simp [appendNeighbor, lookupNeighbors, alookup]
  | cons p rest ih =>
    obtain ⟨k, ns⟩ := p
    by_cases h : k = i
    · simp [appendNeighbor, lookupNeighbors, alookup, h]
    · simpa [appendNeighbor, lookupNeighbors, alookup, h] using ih

theorem lookupNeighbors_appendNeighbor_ne (m : List (Int × List Neighbor))
    (i i' : Int) (n : Neighbor) (h : i' ≠ i) :
    lookupNeighbors (appendNeighbor m i' n) i = lookupNeighbors m i := by
  induction m with
  | nil => simp [appendNeighbor, lookupNeighbors, alookup, h]
  | cons p rest ih =>
    obtain ⟨k, ns⟩ := p
    by_cases h0 : k = i'
    · subst h0
      simp [appendNeighbor, lookupNeighbors, alookup, h]
    · by_cases h1 : k = i
      · simp [appendNeighbor, lookupNeighbors, alookup, h0, h1, Ne.symm h]
      · simpa [appendNeighbor, lookupNeighbors, alookup, h0, h1] using ih

/-- Effect of one scanned row on the group of a fixed source index. -/
theorem lookupNeighbors_simRowStep (rm : List (Int × Int))
    (m : List (Int × List Neighbor)) (rec : List String) (iIdx : Int) :
    lookupNeighbors (simRowStep rm m rec) iIdx
      = lookupNeighbors m iIdx ++ (simRowNeighbor rm iIdx rec).toList := by
  simp only [simRowStep, simRowNeighbor]
  split_ifs with hlen hc1 hc2 hc2
  · simp
  · obtain ⟨hi, hj, hidx⟩ := hc2
    rw [hidx]
    rw [lookupNeighbors_appendNeighbor_self]
    simp
  · by_cases hidx : goAtoi (rec.getD 0 "") = iIdx
    · exact absurd ⟨hc1.1, hc1.2, hidx⟩ hc2
    · rw [lookupNeighbors_appendNeighbor_ne _ _ _ _ hidx]
      simp
  · exact absurd ⟨hc2.1, hc2.2.1⟩ hc1
  · simp

/-- The grouping fold appends the contributed neighbors of a source index
in encounter order. -/
theorem lookupNeighbors_foldl (rm : List (Int × Int)) (rows : List (List String))
    (m : List (Int × List Neighbor)) (iIdx : Int) :
    lookupNeighbors (rows.foldl (simRowStep rm) m) iIdx
      = lookupNeighbors m iIdx ++ rows.filterMap (simRowNeighbor rm iIdx) := by
  induction rows generalizing m with
  | nil => simp
  | cons rec rows ih =>
    rw [List.foldl_cons, ih, lookupNeighbors_simRowStep]
    rcases h : simRowNeighbor rm iIdx rec with _ | n
    · simp [List.filterMap_cons, h]
    · simp [List.filterMap_cons, h]

/-- C6: the neighbor list of every source index is exactly the encounter-
order list of its accepted rows, the emitted list is its first twenty
entries in that same order (no re-sorting by weight), and a source with
more than twenty rows emits exactly twenty neighbors. -/
theorem C6_similarity_truncation (rows : List (List String))
    (itemMap : List (Int × Int)) (iIdx : Int) :
    lookupNeighbors (loadSimilarities rows itemMap) iIdx
      = rows.filterMap (simRowNeighbor (reverseMapOf itemMap) iIdx)
    ∧ emitNeighbors (lookupNeighbors (loadSimilarities rows itemMap) iIdx)
      = (rows.filterMap (simRowNeighbor (reverseMapOf itemMap) iIdx)).take 20
    ∧ ((rows.filterMap (simRowNeighbor (reverseMapOf itemMap) iIdx)).length > 20 →
        (emitNeighbors (lookupNeighbors (loadSimilarities rows itemMap) iIdx)).length
          = 20) := by
  have hfull : lookupNeighbors (loadSimilarities rows itemMap) iIdx
      = rows.filterMap (simRowNeighbor (reverseMapOf itemMap) iIdx) := by
    rw [loadSimilarities, lookupNeighbors_foldl]
    simp [lookupNeighbors, alookup]
  have htake : ∀ l : List Neighbor, emitNeighbors l = l.take 20 := by
    intro l
    rw [emitNeighbors]
    split_ifs with h
    · rfl
    · rw [List.take_of_length_le (by omega)]
  refine ⟨hfull, by rw [hfull, htake], ?_⟩
  intro hlen
  rw [hfull, htake, List.length_take]
  omega

/-- C6 witness: 21 identical similarity rows for source index 10 retain
exactly 20 neighbors, the first 20 in encounter order. -/
theorem C6_similarity_truncation_witness :
    ((List.replicate 21 ["10", "3", "0.5"]).filterMap
        (simRowNeighbor (reverseMapOf [(7, 3)]) 10)).length > 20
    ∧ (emitNeighbors (lookupNeighbors
        (loadSimilarities (List.replicate 21 ["10", "3", "0.5"]) [(7, 3)]) 10)).length = 20
    ∧ emitNeighbors (lookupNeighbors
        (loadSimilarities (List.replicate 21 ["10", "3", "0.5"]) [(7, 3)]) 10)
      = ((List.replicate 21 ["10", "3", "0.5"]).filterMap
          (simRowNeighbor (reverseMapOf [(7, 3)]) 10)).take 20 :=
  ⟨by decide,
   (C6_similarity_truncation (List.replicate 21 ["10", "3", "0.5"]) [(7, 3)] 10).2.2
     (by decide),
   (C6_similarity_truncation (List.replicate 21 ["10", "3", "0.5"]) [(7, 3)] 10).2.1⟩

/-! ### Title/year parsing (`processors.parseTitleAndYear`, with
`yearRe = \((\d{4})\)\s*$` from the main package) -/

/-- Worker on the reversed character list: a match of
`\((\d{4})\)\s*$` must end at the end of the string, so after stripping
the trailing white space run the match, if any, is exactly the final six
characters `(dddd)`; the returned group is in original order. -/
def yearReFindAux : List Char → Option (List Char)
  | ')' :: d1 :: d2 :: d3 :: d4 :: '(' :: _ =>
    if d1.isDigit ∧ d2.isDigit ∧ d3.isDigit ∧ d4.isDigit then some [d4, d3, d2, d1]
    else none
  | _ => none

/-- Model of `yearRe.FindStringSubmatch`, returning the 4-digit group. -/
def yearReFind (s : String) : Option String :=
  (yearReFindAux (trimRight isRegexSpace s.toList).reverse).map (fun l => ⟨l⟩)

/-- `strings.LastIndex(s, "(")` over characters (ASCII model): the index
of the last occurrence, `-1` when absent. -/
def lastIndexOf : List Char → Char → Int
  | [], _ => -1
  | a :: rest, c =>
    let r := lastIndexOf rest c
    if r ≥ 0 then r + 1 else if a = c then 0 else -1

/-- `processors.parseTitleAndYear` (part_001 lines 34-51). -/
def parseTitleAndYear (raw : String) : String × Option Int :=
  let r := trimSpace raw
  match yearReFind r with
  | some g =>
    match parseGoInt g with
    | some y =>
      let idx := lastIndexOf r.toList '('
      if idx > 0 then (trimSpace ⟨r.toList.take idx.toNat⟩, some y)
      else (trimSpace r, some y)
    | none => (r, none)
  | none => (r, none)

theorem trimRight_append_last (p : Char → Bool) (l : List Char) (c : Char)
    (hc : p c = false) : trimRight p (l ++ [c]) = l ++ [c] := by
  rw [trimRight, List.reverse_append]
  simp only [List.reverse_cons, List.reverse_nil, List.nil_append, List.singleton_append]
  rw [List.dropWhile_cons_of_neg (by simp [hc])]
  simp

theorem lastIndexOf_not_mem (l : List Char) (c : Char) (h : c ∉ l) :
    lastIndexOf l c = -1 := by
  induction l with
  | nil => rfl
  | cons a rest ih =>
    simp only [List.mem_cons, not_or] at h
    simp only [lastIndexOf, ih h.2]
    norm_num
    exact fun he => absurd he.symm h.1

theorem lastIndexOf_append (pre suffix : List Char) (c : Char) (h : c ∉ suffix) :
    lastIndexOf (pre ++ c :: suffix) c = (pre.length : Int) := by
  induction pre with
  | nil =>
    simp only [List.nil_append, lastIndexOf, lastIndexOf_not_mem suffix c h]
    norm_num
  | cons a pre ih =>
    simp only [List.cons_append, lastIndexOf, List.append_eq]
    rw [ih, if_pos (by omega : (pre.length : Int) ≥ 0)]
    simp

theorem dropWhile_cons_neg (p : Char → Bool) (x : Char) (l : List Char)
    (hx : p x = false) : (x :: l).dropWhile p = x :: l := by
  rw [List.dropWhile_cons_of_neg (by simp [hx])]

theorem trimBoth_of_ends (p : Char → Bool) (x y : Char) (mid : List Char)
    (hx : p x = false) (hy : p y = false) :
    trimBoth p (x :: (mid ++ [y])) = x :: (mid ++ [y]) := by
  rw [trimBoth, dropWhile_cons_neg p x _ hx]
  exact trimRight_append_last p (x :: mid) y hy

theorem parseGoInt_digits (c : Char) (t : List Char) (hc : c.isDigit = true)
    (ht : (c :: t).all Char.isDigit = true) :
    parseGoInt ⟨c :: t⟩ = some ((digitsVal (c :: t) : Nat) : Int) := by
  have h1 : c ≠ '-' := by
    intro he
    rw [he] at hc
    exact absurd hc (by decide)
  have h2 : c ≠ '+' := by
    intro he
    rw [he] at hc
    exact absurd hc (by decide)
  simp only [parseGoInt, String.toList]
  rw [if_neg h1, if_neg h2]
  rw [if_pos ⟨List.cons_ne_nil c t, ht⟩]
  simp

/-- C7 counterexample: `"(1995)"` ends with a parenthesized 4-digit group,
but the produced title is the whole string `"(1995)"`, not the trimmed
prefix before the last opening parenthesis (which would be empty): the
source only strips the suffix when the last `(` is at a positive index. -/
theorem C7_counterexample :
    parseTitleAndYear "(1995)" = ("(1995)", some 1995)
    ∧ (parseTitleAndYear "(1995)").1 ≠ "" := by
  decide

/-- C7 amended: when the trimmed raw title ends in `(dddd)` and the last
opening parenthesis is not the first character, the year is the digit
group value and the title is the trimmed prefix before that parenthesis;
when the parenthesis is the first character the whole trimmed string stays
as the title (year still set); without a trailing year group the whole
trimmed string is the title and no year is set. -/
theorem C7_title_year (raw : String) :
    (∀ (pre : List Char) (d1 d2 d3 d4 : Char),
        d1.isDigit = true → d2.isDigit = true → d3.isDigit = true → d4.isDigit = true →
        (trimSpace raw).toList = pre ++ ['(', d1, d2, d3, d4, ')'] →
        parseTitleAndYear raw
          = (if pre = [] then trimSpace raw else trimSpace ⟨pre⟩,
             some ((digitsVal [d1, d2, d3, d4] : Nat) : Int)))
    ∧ (yearReFind (trimSpace raw) = none →
        parseTitleAndYear raw = (trimSpace raw, none)) := by
  constructor
  · intro pre d1 d2 d3 d4 hd1 hd2 hd3 hd4 hsplit
    have hdigits : ∀ c, c.isDigit = true → c ≠ '(' ∧ c ≠ ')' := by
      intro c hcd
      constructor <;> intro he <;> rw [he] at hcd <;> exact absurd hcd (by decide)
    have hfind : yearReFind (trimSpace raw) = some ⟨[d1, d2, d3, d4]⟩ := by
      rw [yearReFind, hsplit]
      rw [show pre ++ ['(', d1, d2, d3, d4, ')']
          = (pre ++ ['(', d1, d2, d3, d4]) ++ [')'] by simp]
      rw [trimRight_append_last _ _ _ (by decide)]
      rw [List.reverse_append]
      simp only [List.reverse_cons, List.reverse_nil, List.nil_append,
        List.reverse_append, List.singleton_append, List.cons_append, List.append_assoc]
      rw [show yearReFindAux (')' :: d4 :: d3 :: d2 :: d1 :: '(' :: pre.reverse)
          = if d4.isDigit ∧ d3.isDigit ∧ d2.isDigit ∧ d1.isDigit
            then some [d1, d2, d3, d4] else none from rfl]
      rw [if_pos ⟨hd4, hd3, hd2, hd1⟩]
      rfl
    have hparse : parseGoInt ⟨[d1, d2, d3, d4]⟩
        = some ((digitsVal [d1, d2, d3, d4] : Nat) : Int) :=
      parseGoInt_digits d1 [d2, d3, d4] hd1 (by simp [hd1, hd2, hd3, hd4])
    have hnotmem : '(' ∉ ([d1, d2, d3, d4, ')'] : List Char) := by
      intro hmem
      rcases List.mem_cons.mp hmem with he | hmem
      · exact (hdigits d1 hd1).1 he.symm
      rcases List.mem_cons.mp hmem with he | hmem
      · exact (hdigits d2 hd2).1 he.symm
      rcases List.mem_cons.mp hmem with he | hmem
      · exact (hdigits d3 hd3).1 he.symm
      rcases List.mem_cons.mp hmem with he | hmem
      · exact (hdigits d4 hd4).1 he.symm
      rcases List.mem_cons.mp hmem with he | hmem
      · exact absurd he (by decide)
      · cases hmem
    have hlast : lastIndexOf (trimSpace raw).toList '(' = (pre.length : Int) := by
      rw [hsplit]
      rw [show (pre ++ ['(', d1, d2, d3, d4, ')'] : List Char)
          = pre ++ '(' :: [d1, d2, d3, d4, ')'] by simp]
      exact lastIndexOf_append pre _ '(' hnotmem
    rw [parseTitleAndYear]
    simp only [hfind, hparse, hlast]
    by_cases hpre : pre = []
    · subst hpre
      rw [if_neg (by norm_num)]
      rw [if_pos rfl]
      simp only [List.nil_append] at hsplit
      have : trimSpace (trimSpace raw) = trimSpace raw := by
        rw [show trimSpace (trimSpace raw) = ⟨trimBoth isGoSpace (trimSpace raw).toList⟩
          from rfl]
        rw [hsplit]
        rw [show (['(', d1, d2, d3, d4, ')'] : List Char)
            = '(' :: ([d1, d2, d3, d4] ++ [')']) by simp]
        rw [trimBoth_of_ends _ _ _ _ (by decide) (by decide)]
        conv_rhs => rw [show trimSpace raw = (⟨(trimSpace raw).toList⟩ : String) from rfl,
          hsplit]
        simp
      rw [this]
    · have hlen : 0 < pre.length := List.length_pos.mpr hpre
      rw [if_pos (by exact_mod_cast hlen)]
      rw [if_neg hpre]
      rw [hsplit]
      rw [show ((pre.length : Int)).toNat = pre.length by simp]
      rw [List.take_left]
  · intro hnone
    rw [parseTitleAndYear, hnone]

/-- C7 witness (end-to-end scenarios 1 and 2): `"Toy Story (1995)"` parses
to title `"Toy Story"` and year 1995; `"Some Title"` keeps the whole
string with no year. -/
theorem C7_title_year_witness :
    parseTitleAndYear "Toy Story (1995)" = ("Toy Story", some 1995)
    ∧ parseTitleAndYear "Some Title" = ("Some Title", none) := by
  constructor
  · have h := (C7_title_year "Toy Story (1995)").1 "Toy Story ".toList '1' '9' '9' '5'
      (by decide) (by decide) (by decide) (by decide) (by decide)
    rw [h]
    decide
  · have h := (C7_title_year "Some Title").2 (by decide)
    rw [h]
    decide

/-! ### External Enrichment Client (`external.TMDBClient.FetchMovieData`)

Shallow embedding of one `FetchMovieData` call: the shared cache is passed
in and returned explicitly, the two HTTP calls are oracle arguments (the
outcome each `httpClient.Get` would produce), and the outcome records how
many network calls were made and how many rate-limiter tokens were
consumed (`<-c.rateLimiter` precedes each call). -/

/-- `models.CastMember` (empty `profileURL` is the omitted field). -/
structure CastMember where
  name : String
  profileURL : String
deriving DecidableEq

/-- `models.ExternalData` (Go zero values for absent fields). -/
structure ExternalData where
  posterURL : String
  overview : String
  cast : List CastMember
  director : String
  runtime : Int
  budget : Int
  revenue : Int
  tmdbFetched : Bool
deriving DecidableEq

/-- The fields of `models.TMDBMovieResponse` the client consumes. -/
structure TMDBMovieResponse where
  overview : String
  posterPath : String
  runtime : Int
  budget : Int
  revenue : Int
deriving DecidableEq

/-- One cast entry of `models.TMDBCreditsResponse`. -/
structure TMDBCastEntry where
  name : String
  profilePath : String
deriving DecidableEq

/-- One crew entry of `models.TMDBCreditsResponse`. -/
structure TMDBCrewEntry where
  name : String
  job : String
deriving DecidableEq

/-- `models.TMDBCreditsResponse`. -/
structure TMDBCreditsResponse where
  cast : List TMDBCastEntry
  crew : List TMDBCrewEntry
deriving DecidableEq

/-- Outcome of one `httpClient.Get` plus JSON decode: a transport error,
or a status code with the decoded body (`none` = malformed payload). -/
inductive HTTPResult (β : Type) where
  | transportError
  | response (status : Nat) (body : Option β)

/-- Result of one `FetchMovieData` call: the returned value (`none` models
the Go error return), the cache afterwards, and the network calls and
rate-limiter tokens consumed. -/
structure FetchOutcome where
  result : Option ExternalData
  cache : List (String × ExternalData)
  networkCalls : Nat
  tokensConsumed : Nat
deriving DecidableEq

/-- `&models.ExternalData{TMDBFetched: false}` (line 54): Go zero values. -/
def emptyExternalData : ExternalData :=
  ⟨"", "", [], "", 0, 0, 0, false⟩

/-- Lines 113-119: the name of the first crew entry whose job is
`"Director"`, or the zero value. -/
def firstDirector : List TMDBCrewEntry → String
  | [] => ""
  | e :: rest => if e.job = "Director" then e.name else firstDirector rest

/-- Lines 87-119: build the `ExternalData` from the primary response and
the (possibly empty) credits response — poster only when the path is
nonempty, cast truncated to the first 10 entries with per-member profile
URLs, first-match director. -/
def buildExternalData (movieData : TMDBMovieResponse)
    (creditsData : TMDBCreditsResponse) : ExternalData :=
  { posterURL :=
      if movieData.posterPath ≠ ""
      then "https://image.tmdb.org/t/p/w500" ++ movieData.posterPath else ""
    overview := movieData.overview
    cast := (creditsData.cast.take 10).map (fun m =>
      ⟨m.name, if m.profilePath ≠ ""
        then "https://image.tmdb.org/t/p/w185" ++ m.profilePath else ""⟩)
    director := firstDirector creditsData.crew
    runtime := movieData.runtime
    budget := movieData.budget
    revenue := movieData.revenue
    tmdbFetched := true }

/-- `TMDBClient.FetchMovieData` (part_000 lines 32-127). -/
def fetchMovieData (cache : List (String × ExternalData)) (tmdbID : String)
    (primary : HTTPResult TMDBMovieResponse)
    (credits : HTTPResult TMDBCreditsResponse) : FetchOutcome :=
  match alookup cache tmdbID with
  | some cached => ⟨some cached, cache, 0, 0⟩
  | none =>
    match primary with
    | .transportError => ⟨none, cache, 1, 1⟩
    | .response status body =>
      if status = 404 then
        ⟨some emptyExternalData, aset cache tmdbID emptyExternalData, 1, 1⟩
      else if status ≠ 200 then ⟨none, cache, 1, 1⟩
      else
        match body with
        | none => ⟨none, cache, 1, 1⟩
        | some movieData =>
          match credits with
          | .transportError => ⟨none, cache, 2, 2⟩
          | .response cstatus cbody =>
            let creditsData :=
              if cstatus = 200 then cbody.getD ⟨[], []⟩ else ⟨[], []⟩
            let ext := buildExternalData movieData creditsData
            ⟨some ext, aset cache tmdbID ext, 2, 2⟩

/-- C8: a not-found primary response yields a successful (non-error)
record with `tmdbFetched = false`, stores it in the cache, and a second
fetch for the same key returns that cached record with zero network calls
and zero rate-limiter tokens, whatever the network would do. -/
theorem C8_not_found_cached (cache : List (String × ExternalData)) (tmdbID : String)
    (body404 : Option TMDBMovieResponse) (credits : HTTPResult TMDBCreditsResponse)
    (p2 : HTTPResult TMDBMovieResponse) (c2 : HTTPResult TMDBCreditsResponse)
    (hmiss : alookup cache tmdbID = none) :
    (fetchMovieData cache tmdbID (.response 404 body404) credits).result
        = some emptyExternalData
    ∧ emptyExternalData.tmdbFetched = false
    ∧ (fetchMovieData cache tmdbID (.response 404 body404) credits).tokensConsumed = 1
    ∧ alookup (fetchMovieData cache tmdbID (.response 404 body404) credits).cache tmdbID
        = some emptyExternalData
    ∧ fetchMovieData (fetchMovieData cache tmdbID (.response 404 body404) credits).cache
        tmdbID p2 c2
      = ⟨some emptyExternalData,
         (fetchMovieData cache tmdbID (.response 404 body404) credits).cache, 0, 0⟩ := by
  have h1 : fetchMovieData cache tmdbID (.response 404 body404) credits
      = ⟨some emptyExternalData, aset cache tmdbID emptyExternalData, 1, 1⟩ := by
    rw [fetchMovieData.eq_def, hmiss]
    rfl
  have hcached : alookup (aset cache tmdbID emptyExternalData) tmdbID
      = some emptyExternalData := alookup_aset_self cache tmdbID emptyExternalData
  refine ⟨by rw [h1], rfl, by rw [h1], by rw [h1]; exact hcached, ?_⟩
  rw [h1]
  rw [fetchMovieData.eq_def, hcached]

/-- C8 witness (end-to-end scenario 5): key `"862"`, empty cache, primary
404 — the record is cached and the second fetch is network-free. -/
theorem C8_not_found_cached_witness :
    (fetchMovieData [] "862" (.response 404 none) .transportError).result
        = some emptyExternalData
    ∧ alookup (fetchMovieData [] "862" (.response 404 none) .transportError).cache "862"
        = some emptyExternalData
    ∧ fetchMovieData
        (fetchMovieData [] "862" (.response 404 none) .transportError).cache "862"
        (.response 200 none) .transportError
      = ⟨some emptyExternalData,
         (fetchMovieData [] "862" (.response 404 none) .transportError).cache, 0, 0⟩ := by
  have h := C8_not_found_cached [] "862" none .transportError
    (.response 200 none) .transportError (by decide)
  exact ⟨h.1, h.2.2.2.1, h.2.2.2.2⟩

/-- C9 counterexample: with a cache miss and a successful primary fetch, a
transport failure of the secondary (credits) call makes `FetchMovieData`
return an error (lines 73-76) instead of degrading to an empty secondary
result, and nothing is cached. -/
theorem C9_counterexample :
    (fetchMovieData [] "862"
        (.response 200 (some ⟨"plot", "", 81, 30000000, 373554033⟩))
        .transportError).result = none
    ∧ (fetchMovieData [] "862"
        (.response 200 (some ⟨"plot", "", 81, 30000000, 373554033⟩))
        .transportError).cache = [] := by
  constructor
  · rfl
  · rfl

/-- C9 amended: after a successful primary fetch, a secondary response
with a non-success status, or a 200 with a malformed payload, degrades to
an empty secondary result — the call still succeeds with a record built
from the primary data (empty cast, empty director) and caches it; a
transport error of the secondary call, however, fails the whole request
and caches nothing. -/
theorem C9_secondary_degradation (cache : List (String × ExternalData))
    (tmdbID : String) (movieData : TMDBMovieResponse) (cstatus : Nat)
    (cbody : Option TMDBCreditsResponse) (hmiss : alookup cache tmdbID = none) :
    (cstatus ≠ 200 ∨ cbody = none →
      fetchMovieData cache tmdbID (.response 200 (some movieData))
          (.response cstatus cbody)
        = ⟨some (buildExternalData movieData ⟨[], []⟩),
           aset cache tmdbID (buildExternalData movieData ⟨[], []⟩), 2, 2⟩
      ∧ (buildExternalData movieData ⟨[], []⟩).tmdbFetched = true
      ∧ (buildExternalData movieData ⟨[], []⟩).overview = movieData.overview
      ∧ (buildExternalData movieData ⟨[], []⟩).cast = []
      ∧ (buildExternalData movieData ⟨[], []⟩).director = "")
    ∧ (fetchMovieData cache tmdbID (.response 200 (some movieData))
          .transportError).result = none
    ∧ (fetchMovieData cache tmdbID (.response 200 (some movieData))
          .transportError).cache = cache := by
  refine ⟨?_, ?_, ?_⟩
  · intro hdeg
    have hcd : (if cstatus = 200 then cbody.getD ⟨[], []⟩ else ⟨[], []⟩)
        = (⟨[], []⟩ : TMDBCreditsResponse) := by
      rcases hdeg with h | h
      · rw [if_neg h]
      · subst h
        split_ifs <;> rfl
    constructor
    · rw [fetchMovieData.eq_def, hmiss]
      simp only [hcd]
      rfl
    · exact ⟨rfl, rfl, by simp [buildExternalData], rfl⟩
  · rw [fetchMovieData.eq_def, hmiss]
    rfl
  · rw [fetchMovieData.eq_def, hmiss]
    rfl

/-- C9 witness for the amended statement: a 500 on the credits call and a
malformed 200 payload both degrade to the empty secondary result; the
transport-error conjunct is instantiated at the same inputs. -/
theorem C9_secondary_degradation_witness :
    (fetchMovieData [] "862" (.response 200 (some ⟨"plot", "", 81, 30000000, 373554033⟩))
        (.response 500 (some ⟨[⟨"Tom Hanks", ""⟩], [⟨"John Lasseter", "Director"⟩]⟩)))
      = ⟨some (buildExternalData ⟨"plot", "", 81, 30000000, 373554033⟩ ⟨[], []⟩),
         aset [] "862" (buildExternalData ⟨"plot", "", 81, 30000000, 373554033⟩ ⟨[], []⟩),
         2, 2⟩
    ∧ (fetchMovieData [] "862" (.response 200 (some ⟨"plot", "", 81, 30000000, 373554033⟩))
        (.response 200 none))
      = ⟨some (buildExternalData ⟨"plot", "", 81, 30000000, 373554033⟩ ⟨[], []⟩),
         aset [] "862" (buildExternalData ⟨"plot", "", 81, 30000000, 373554033⟩ ⟨[], []⟩),
         2, 2⟩
    ∧ (fetchMovieData [] "862" (.response 200 (some ⟨"plot", "", 81, 30000000, 373554033⟩))
        .transportError).result = none :=
  ⟨((C9_secondary_degradation [] "862" ⟨"plot", "", 81, 30000000, 373554033⟩ 500
      (some ⟨[⟨"Tom Hanks", ""⟩], [⟨"John Lasseter", "Director"⟩]⟩) (by decide)).1
      (Or.inl (by decide))).1,
   ((C9_secondary_degradation [] "862" ⟨"plot", "", 81, 30000000, 373554033⟩ 200
      none (by decide)).1 (Or.inr rfl)).1,
   (C9_secondary_degradation [] "862" ⟨"plot", "", 81, 30000000, 373554033⟩ 200
      none (by decide)).2.1⟩

end CsvEtl
